import Mathlib

/-!
# crt-tpc-match: the reconstruction and matching pipeline of `src/wires.cpp`

A shallow embedding of the per-event pipeline of `wires.cpp` (hit classification, candidate
track building, wire-plane intersection, track scoring, match selection) together with the
properties its specification states about it.

Conventions of the embedding.

* `double` values are modelled by exact rationals `ℚ`.  Every comparison the program makes
  (`<`, `>`, `==`) is the corresponding comparison of rationals; `std::signbit v` is `v < 0`;
  `v.Mag() < d` for a non-negative constant `d` is `v.Mag2() < d * d`.  Rounding, infinities,
  NaN and the negative zero are outside the model.
* `hashmap<K, std::vector<V>>` is modelled by its lookup function `K → List V`: `operator[]`
  yields the empty vector for an absent key, so inserting an empty vector is the identity
  and only `m[k].push_back v` changes the map.  Key equality is structural equality.
* `hashset<double>` is modelled by the list of inserted values, used through membership only.
* `structs.h` and `utils.h` are not part of the sources at hand.  The record types they declare
  (`TVector3`, `CRTHit`, `WireHit`, `Wire`, `CRTTrack`, `IntersectsByHeight`) are rebuilt from
  the way `wires.cpp` uses them and from the specification; each such declaration says so.
  The constants `ytop`, `ymid`, `ybot`, `NHeightBins` are parameters.
-/

namespace Wires

/-! ## Data model -/

/-- ROOT's `TVector3`, three `double` coordinates; equality is componentwise. -/
structure TVector3 where
  x : ℚ
  y : ℚ
  z : ℚ
deriving DecidableEq

/-- Componentwise difference, `TVector3::operator-`. -/
def TVector3.sub (a b : TVector3) : TVector3 :=
  ⟨a.x - b.x, a.y - b.y, a.z - b.z⟩

/-- Squared length, `TVector3::Mag2`. -/
def TVector3.Mag2 (a : TVector3) : ℚ :=
  a.x * a.x + a.y * a.y + a.z * a.z

/-- The test `v.Mag() < d` for a constant `d ≥ 0`, read in exact arithmetic. -/
def TVector3.MagLt (a : TVector3) (d : ℚ) : Bool :=
  decide (a.Mag2 < d * d)

/-- The setter `TVector3::SetX`. -/
def TVector3.SetX (a : TVector3) (x : ℚ) : TVector3 :=
  ⟨x, a.y, a.z⟩

/-- Modelled from the spec: `CRTHit` of `structs.h`, built by `CRTHit(x, y, z, t)`
(§3 TaggerHit: position and time). -/
structure CRTHit where
  x : ℚ
  y : ℚ
  z : ℚ
  t : ℚ
deriving DecidableEq

/-- Modelled from the spec: `WireHit` of `structs.h`, built by
`WireHit(channel, cryo, tpc, plane, wire, peakT)` (§3 WireHit). -/
structure WireHit where
  channel : Int
  cryo : Int
  tpc : Int
  plane : Int
  wire : Int
  peakTick : ℚ
deriving DecidableEq

/-- Modelled from the spec: `Wire` of `structs.h` (§3 Wire: plane id, channel id, two 3D
endpoints); `intersection` reads `plane`, `x1`, `y1`, `z1`, `y2`, `z2`. -/
structure Wire where
  plane : Int
  channel : Int
  x1 : ℚ
  y1 : ℚ
  z1 : ℚ
  x2 : ℚ
  y2 : ℚ
  z2 : ℚ
deriving DecidableEq

/-- Modelled from the spec: `CRTTrack` of `structs.h` (§3 CandidateTrack): a base point
`(xb, yb, zb)` and up to three optional endpoints returned by `top()`, `mid()`, `bot()`.
`operator==` is taken to be equality of all components. -/
structure CRTTrack where
  xb : ℚ
  yb : ℚ
  zb : ℚ
  top : Option TVector3
  mid : Option TVector3
  bot : Option TVector3
deriving DecidableEq

/-- A `hashmap<K, std::vector<V>>`, seen through `operator[]`. -/
abbrev VecMap (κ ν : Type) := κ → List ν

/-- The empty map: every key reads as the empty vector. -/
def VecMap.empty {κ ν : Type} : VecMap κ ν := fun _ => []

/-- The statement `m[k].push_back(v)`. -/
def VecMap.push {κ ν : Type} [DecidableEq κ] (m : VecMap κ ν) (k : κ) (v : ν) : VecMap κ ν :=
  fun k' => if k' = k then m k' ++ [v] else m k'

/-! ## Hit classification (`near_top`, `near_mid`, `near_bot`, `wires` lines 133-143) -/

/-- Lines 16-18: `near_top(y, eps)`; `ytop` is the calibration constant of `utils.h`. -/
def near_top (ytop : ℚ) (y : ℚ) (eps : ℚ) : Bool := decide (|y - ytop| < eps)

/-- Lines 20-22: `near_mid(y, eps)`; `ymid` is the calibration constant of `utils.h`. -/
def near_mid (ymid : ℚ) (y : ℚ) (eps : ℚ) : Bool := decide (|y - ymid| < eps)

/-- Lines 24-26: `near_bot(y, eps)`; `ybot` is the calibration constant of `utils.h`. -/
def near_bot (ybot : ℚ) (y : ℚ) (eps : ℚ) : Bool := decide (|y - ybot| < eps)

/-- Lines 136-142: the body of the classification loop on the state `(top, mid, bot)`; the
calls use the default tolerance `eps = 0.1`. -/
def classifyStep (ytop ymid : ℚ) (acc : List CRTHit × List CRTHit × List CRTHit)
    (hit : CRTHit) : List CRTHit × List CRTHit × List CRTHit :=
  if near_top ytop hit.y 0.1 then (acc.1 ++ [hit], acc.2.1, acc.2.2)
  else if near_mid ymid hit.y 0.1 then (acc.1, acc.2.1 ++ [hit], acc.2.2)
  else (acc.1, acc.2.1, acc.2.2 ++ [hit])

/-- Lines 134-143: the lists `(top, mid, bot)` after the classification loop. -/
def classify (ytop ymid : ℚ) (chits : List CRTHit) :
    List CRTHit × List CRTHit × List CRTHit :=
  chits.foldl (classifyStep ytop ymid) ([], [], [])

/-! ## Candidate tracks (`wires`, lines 145-201) -/

/-- Modelled from the spec: `CRTTrack::topMid` of `structs.h` (§4.2 step 1: a two-endpoint
trajectory top, mid with base point at the mid hit). -/
def CRTTrack.topMid (tx ty tz mx my mz : ℚ) : CRTTrack :=
  ⟨mx, my, mz, some ⟨tx, ty, tz⟩, some ⟨mx, my, mz⟩, none⟩

/-- Modelled from the spec: `CRTTrack::topBot` of `structs.h` (§4.2 step 3: a two-endpoint
candidate for a (top, bottom) pair); the base point is the bottom hit. -/
def CRTTrack.topBot (tx ty tz bx by_ bz : ℚ) : CRTTrack :=
  ⟨bx, by_, bz, some ⟨tx, ty, tz⟩, none, some ⟨bx, by_, bz⟩⟩

/-- Modelled from the spec: `CRTTrack::midBot` of `structs.h` (§4.2 step 3: a two-endpoint
candidate for a (mid, bottom) pair); the base point is the bottom hit. -/
def CRTTrack.midBot (mx my mz bx by_ bz : ℚ) : CRTTrack :=
  ⟨bx, by_, bz, none, some ⟨mx, my, mz⟩, some ⟨bx, by_, bz⟩⟩

/-- Modelled from the spec: the constructor `CRTTrack(track, x, y, z)` of `structs.h` (§4.2
step 2: the three-endpoint candidate that keeps the top and mid of `track` and receives the
bottom endpoint `(x, y, z)`); the base point becomes that bottom endpoint. -/
def CRTTrack.withBot (track : CRTTrack) (x y z : ℚ) : CRTTrack :=
  ⟨x, y, z, track.top, track.mid, some ⟨x, y, z⟩⟩

/-- Modelled from the spec: `CRTTrack::topmostPt` of `structs.h` (§4.5: the top-most
endpoint of the track): the first endpoint present among top, mid, bottom. -/
def CRTTrack.topmostPt (track : CRTTrack) : TVector3 :=
  match track.top, track.mid, track.bot with
  | some t, _, _ => t
  | none, some m, _ => m
  | none, none, some b => b
  | none, none, none => ⟨track.xb, track.yb, track.zb⟩

/-- Modelled from the spec: `CRTTrack::projectY` of `structs.h` (§4.2 step 2: the point of
the trajectory at height `y`, extrapolated with the trajectory's own slopes dx/dy and dz/dy
between its top-most point and its base point). -/
def CRTTrack.projectY (track : CRTTrack) (y : ℚ) : TVector3 :=
  ⟨track.xb + (track.topmostPt.x - track.xb) / (track.topmostPt.y - track.yb) * (y - track.yb),
   y,
   track.zb + (track.topmostPt.z - track.zb) / (track.topmostPt.y - track.yb) * (y - track.yb)⟩

/-- Modelled from the spec: `CRTTrack::topEq` of `structs.h` (§4.2 step 4: the top endpoints
of the two tracks are present and equal in value). -/
def CRTTrack.topEq (a b : CRTTrack) : Bool :=
  match a.top, b.top with
  | some p, some q => decide (p = q)
  | _, _ => false

/-- Modelled from the spec: `CRTTrack::midEq` of `structs.h` (§4.2 step 4: the mid endpoints
of the two tracks are present and equal in value). -/
def CRTTrack.midEq (a b : CRTTrack) : Bool :=
  match a.mid, b.mid with
  | some p, some q => decide (p = q)
  | _, _ => false

/-- Modelled from the spec: `CRTTrack::botEq` of `structs.h` (§4.2 step 4 with §3: the bottom
endpoints of the two tracks are present and equal in value, the x of a bottom endpoint being
a placeholder that takes no part in the comparison). -/
def CRTTrack.botEq (a b : CRTTrack) : Bool :=
  match a.bot, b.bot with
  | some p, some q => decide (p.y = q.y ∧ p.z = q.z)
  | _, _ => false

/-- Lines 146-151: the top-mid seed tracks, one per (top hit, mid hit) pair. -/
def seedTracks (top mid : List CRTHit) : List CRTTrack :=
  top.flatMap (fun thit =>
    mid.map (fun mhit => CRTTrack.topMid thit.x thit.y thit.z mhit.x mhit.y mhit.z))

/-- Lines 161-168: the body of the loop over `bot` for the popped seed `track`. -/
def completeStep (track : CRTTrack) (tracks : List CRTTrack) (bhit : CRTHit) :
    List CRTTrack :=
  if decide ((track.projectY bhit.y).x < 0) = decide (bhit.x < 0) ∧
      ((⟨bhit.x, bhit.y, bhit.z⟩ : TVector3).sub (track.projectY bhit.y)).MagLt 600 = true then
    tracks ++ [CRTTrack.withBot track (track.projectY bhit.y).x bhit.y bhit.z]
  else tracks

/-- Lines 157-170: `j` iterations of the loop that pops the front track and appends its
completions; `none` when `tracks[0]` does not exist. -/
def completionLoop (bot : List CRTHit) : Nat → List CRTTrack → Option (List CRTTrack)
  | 0, tracks => some tracks
  | j + 1, tracks =>
    match tracks with
    | [] => none
    | track :: rest => completionLoop bot j (bot.foldl (completeStep track) rest)

/-- Lines 156-171: bottom completion of the seed list. -/
def bottomCompletion (bot : List CRTHit) (tracks : List CRTTrack) : Option (List CRTTrack) :=
  if bot ≠ [] then completionLoop bot tracks.length tracks else some tracks

/-- Lines 180-187: the fallback pairs appended to `tracks`. -/
def fallbackPairs (top mid bot : List CRTHit) (tracks : List CRTTrack) : List CRTTrack :=
  bot.foldl
    (fun tracks bhit =>
      (tracks ++ top.map (fun thit =>
          CRTTrack.topBot thit.x thit.y thit.z bhit.x bhit.y bhit.z)) ++
        mid.map (fun mhit => CRTTrack.midBot mhit.x mhit.y mhit.z bhit.x bhit.y bhit.z))
    tracks

/-- Lines 193-199: the loop over `k`, given as the list of indices still to visit; the result
says whether `tracks[j]` is to be erased, `none` when `tracks[k]` does not exist. -/
def findComplete (tracks : List CRTTrack) (incomp : CRTTrack) : List Nat → Option Bool
  | [] => some false
  | k :: ks =>
    match tracks[k]? with
    | none => none
    | some comp =>
      if (incomp.botEq comp && (incomp.topEq comp || incomp.midEq comp)) = true then some true
      else findComplete tracks incomp ks

/-- Lines 191-200: the backward loop over the `unsigned long` index `j` (decrement modulo
`2 ^ 64`); `none` when an index is out of range or when the fuel runs out. -/
def eraseLoop (firstIncomplete : Nat) : Nat → Nat → List CRTTrack → Option (List CRTTrack)
  | 0, _, _ => none
  | fuel + 1, j, tracks =>
    if j ≥ firstIncomplete then
      match tracks[j]? with
      | none => none
      | some incomp =>
        match findComplete tracks incomp (List.range firstIncomplete) with
        | none => none
        | some true =>
          eraseLoop firstIncomplete fuel ((j + 2 ^ 64 - 1) % 2 ^ 64) (tracks.eraseIdx j)
        | some false => eraseLoop firstIncomplete fuel ((j + 2 ^ 64 - 1) % 2 ^ 64) tracks
    else some tracks

/-- Lines 190-201: redundancy removal; the loop starts at `tracks.size() - 1` computed on
`unsigned long` and needs at most `tracks.size() + 1` evaluations of its condition. -/
def removeRedundant (firstIncomplete : Nat) (tracks : List CRTTrack) :
    Option (List CRTTrack) :=
  if firstIncomplete ≠ 0 then
    eraseLoop firstIncomplete (tracks.length + 1) ((tracks.length + 2 ^ 64 - 1) % 2 ^ 64) tracks
  else some tracks

/-- Lines 145-201: the candidate list built from the classified hits. -/
def buildTracks (top mid bot : List CRTHit) : Option (List CRTTrack) :=
  match bottomCompletion bot (seedTracks top mid) with
  | none => none
  | some tracks => removeRedundant tracks.length (fallbackPairs top mid bot tracks)

/-- Lines 133-201: the candidate list of an event with tagger hits `chits`. -/
def makeTracks (ytop ymid : ℚ) (chits : List CRTHit) : Option (List CRTTrack) :=
  buildTracks (classify ytop ymid chits).1 (classify ytop ymid chits).2.1
    (classify ytop ymid chits).2.2

/-! ## Track scoring (`wires`, lines 246-306) -/

/-- The query `byHeight.at_y(y)` of an `IntersectsByHeight<NHeightBins>` (declared in
`utils.h`), seen as a function: the points of the bin of `y` and, optionally, the points of
a neighbouring bin. -/
abbrev AtY := ℚ → List TVector3 × Option (List TVector3)

/-- Modelled from the spec: `IntersectsByHeight<NHeightBins>` of `utils.h` (§4.4): the
vertical extent `-200 .. 200` cut into `nbins` bins of equal width, each holding the
reconstructed points whose `y` falls inside it. -/
structure IntersectsByHeight where
  nbins : Nat
  intersects : List TVector3

/-- Modelled from the spec: the lower boundary of bin `i` (§4.4, equal-width bins over the
extent `-200 .. 200`). -/
def IntersectsByHeight.binLow (ix : IntersectsByHeight) (i : Nat) : ℚ :=
  -200 + 400 * (i : ℚ) / (ix.nbins : ℚ)

/-- Modelled from the spec: the points of bin `i` (§3 HeightBin: the points whose `y` falls
inside the slice). -/
def IntersectsByHeight.bin (ix : IntersectsByHeight) (i : Nat) : List TVector3 :=
  ix.intersects.filter (fun p => ix.binLow i ≤ p.y ∧ p.y < ix.binLow (i + 1))

/-- Modelled from the spec: the index of the bin containing `y`, if `y` is inside the
extent (§4.4). -/
def IntersectsByHeight.binOf (ix : IntersectsByHeight) (y : ℚ) : Option Nat :=
  (List.range ix.nbins).find? (fun i => ix.binLow i ≤ y ∧ y < ix.binLow (i + 1))

/-- Modelled from the spec: `IntersectsByHeight::at_y` (§4.4): all points of the bin
containing `y` and, when `y` lies within half a bin width of a boundary that has a bin on
its other side, the points of that adjacent bin. -/
def IntersectsByHeight.at_y (ix : IntersectsByHeight) : AtY := fun y =>
  match ix.binOf y with
  | none => ([], none)
  | some i =>
    (ix.bin i,
     if y - ix.binLow i < (ix.binLow (i + 1) - ix.binLow i) / 2 then
       (if 0 < i then some (ix.bin (i - 1)) else none)
     else
       (if i + 1 < ix.nbins then some (ix.bin (i + 1)) else none))

/-- Lines 277-281 and 288-292: the test `mag < maxDist` for the sample `pt` and the
reconstructed point `intersect`, with `maxDist = 5`. -/
def isNear (pt intersect : TVector3) : Bool :=
  ((pt.SetX intersect.x).sub intersect).MagLt 5

/-- Lines 275-284 and 286-295: one loop over retrieved points on the state `(score, tot)`. -/
def countNear (pt : TVector3) (intersects : List TVector3) (acc : ℚ × Int) : ℚ × Int :=
  intersects.foldl
    (fun acc intersect =>
      if isNear pt intersect = true then (acc.1 + 1, acc.2 + 1) else (acc.1, acc.2 + 1))
    acc

/-- Lines 267-296: the body of the walk for the sample `pt`. -/
def scoreSample (byHeight0 byHeight1 : AtY) (pt : TVector3) (acc : ℚ × Int) : ℚ × Int :=
  if pt.y > 200 then acc
  else
    match (if pt.x < 0 then byHeight0 else byHeight1) pt.y with
    | (intersects, none) => countNear pt intersects acc
    | (intersects, some near) => countNear pt near (countNear pt intersects acc)

/-- Lines 262-297: the walk down the track from `pt`, in steps of `delta = 5`, on the state
`(score, tot)`. -/
def scoreWalk (byHeight0 byHeight1 : AtY) (slopeX slopeZ : ℚ) (pt : TVector3)
    (acc : ℚ × Int) : ℚ × Int :=
  if pt.y > -200 then
    scoreWalk byHeight0 byHeight1 slopeX slopeZ (pt.sub ⟨slopeX * 5, 5, slopeZ * 5⟩)
      (scoreSample byHeight0 byHeight1 pt acc)
  else acc
termination_by ⌈(pt.y + 200) / 5⌉.toNat
decreasing_by
  rename_i h
  have e : ((pt.sub ⟨slopeX * 5, 5, slopeZ * 5⟩).y + 200) / 5 = (pt.y + 200) / 5 - 1 := by
    simp only [TVector3.sub]
    ring
  rw [e, Int.ceil_sub_one]
  have hpos : 0 < ⌈(pt.y + 200) / 5⌉ := Int.ceil_pos.2 (by linarith)
  omega

/-- Lines 255-305: the score of `track`. -/
def scoreTrack (byHeight0 byHeight1 : AtY) (track : CRTTrack) : ℚ :=
  if (scoreWalk byHeight0 byHeight1
      ((track.topmostPt.x - track.xb) / (track.topmostPt.y - track.yb))
      ((track.topmostPt.z - track.zb) / (track.topmostPt.y - track.yb))
      track.topmostPt (0, 0)).2 = 0 then 0
  else
    (scoreWalk byHeight0 byHeight1
      ((track.topmostPt.x - track.xb) / (track.topmostPt.y - track.yb))
      ((track.topmostPt.z - track.zb) / (track.topmostPt.y - track.yb))
      track.topmostPt (0, 0)).1 /
    ((scoreWalk byHeight0 byHeight1
      ((track.topmostPt.x - track.xb) / (track.topmostPt.y - track.yb))
      ((track.topmostPt.z - track.zb) / (track.topmostPt.y - track.yb))
      track.topmostPt (0, 0)).2 : ℚ)

/-- The points the walk of lines 262-266 visits from `pt` on: `pt`, `pt - step`, ... as long
as `y > -200`. -/
def walkPoints (slopeX slopeZ : ℚ) (pt : TVector3) : List TVector3 :=
  if pt.y > -200 then pt :: walkPoints slopeX slopeZ (pt.sub ⟨slopeX * 5, 5, slopeZ * 5⟩)
  else []
termination_by ⌈(pt.y + 200) / 5⌉.toNat
decreasing_by
  rename_i h
  have e : ((pt.sub ⟨slopeX * 5, 5, slopeZ * 5⟩).y + 200) / 5 = (pt.y + 200) / 5 - 1 := by
    simp only [TVector3.sub]
    ring
  rw [e, Int.ceil_sub_one]
  have hpos : 0 < ⌈(pt.y + 200) / 5⌉ := Int.ceil_pos.2 (by linarith)
  omega

/-- The sampled points of a track: the points of its walk that are scored (not above 200). -/
def sampledPoints (track : CRTTrack) : List TVector3 :=
  (walkPoints ((track.topmostPt.x - track.xb) / (track.topmostPt.y - track.yb))
    ((track.topmostPt.z - track.zb) / (track.topmostPt.y - track.yb))
    track.topmostPt).filter (fun pt => ¬ pt.y > 200)

/-- The reconstructed points retrieved for the sample `pt`: the points of its bin, then the
points of the neighbouring bin when there is one, from the index of the detector half that
matches the sign of `pt.x`. -/
def retrieved (byHeight0 byHeight1 : AtY) (pt : TVector3) : List TVector3 :=
  match (if pt.x < 0 then byHeight0 else byHeight1) pt.y with
  | (intersects, none) => intersects
  | (intersects, some near) => intersects ++ near

/-- All pairs (sample, retrieved point) the scoring of `track` examines, in order. -/
def examined (byHeight0 byHeight1 : AtY) (track : CRTTrack) : List (TVector3 × TVector3) :=
  (sampledPoints track).flatMap (fun pt =>
    (retrieved byHeight0 byHeight1 pt).map (fun q => (pt, q)))

/-! ## Match selection (`wires`, lines 320-384) -/

/-- Lines 326-333 and 334-341: one optional endpoint `hit` of `track` is recorded in both maps. -/
def recordHit (track : CRTTrack) (hit : Option TVector3)
    (maps : VecMap CRTTrack TVector3 × VecMap TVector3 CRTTrack) :
    VecMap CRTTrack TVector3 × VecMap TVector3 CRTTrack :=
  match hit with
  | some h => (maps.1.push track h, maps.2.push h track)
  | none => maps

/-- Line 345: `xFixedBot = TVector3(0.0, bot->y(), bot->z())`. -/
def xFixedBot (b : TVector3) : TVector3 := ⟨0, b.y, b.z⟩

/-- Lines 325-351: the body of the loop that fills `trackToHits` and `hitToTracks`. -/
def recordTrack (maps : VecMap CRTTrack TVector3 × VecMap TVector3 CRTTrack) (track : CRTTrack) :
    VecMap CRTTrack TVector3 × VecMap TVector3 CRTTrack :=
  recordHit track (track.bot.map xFixedBot) (recordHit track track.mid (recordHit track track.top maps))

/-- Lines 320-352: `(trackToHits, hitToTracks)` after the loop over `tracks`. -/
def buildMaps (tracks : List CRTTrack) : VecMap CRTTrack TVector3 × VecMap TVector3 CRTTrack :=
  tracks.foldl recordTrack (VecMap.empty, VecMap.empty)

/-- Lines 364-375: the loop over `htracks`, with its `continue` and its two `break`s;
`best` is the flag on entry, the result is the flag on exit. -/
def scanTracks (scores : CRTTrack → ℚ) (usedScores : List ℚ) (track : CRTTrack) :
    List CRTTrack → Bool → Bool
  | [], best => best
  | htrack :: rest, best =>
    if track = htrack then scanTracks scores usedScores track rest best
    else if scores track < scores htrack then false
    else if scores track = scores htrack then
      if scores track ∈ usedScores then false
      else scanTracks scores usedScores track rest best
    else scanTracks scores usedScores track rest best

/-- Lines 362-376: the loop over the hits of `track` (a `break` leaves only the inner loop). -/
def scanHits (hitToTracks : VecMap TVector3 CRTTrack) (scores : CRTTrack → ℚ)
    (usedScores : List ℚ) (track : CRTTrack) : List TVector3 → Bool → Bool
  | [], best => best
  | hit :: rest, best =>
    scanHits hitToTracks scores usedScores track rest
      (scanTracks scores usedScores track (hitToTracks hit) best)

/-- Lines 359-379: the value of `best` for `track`. -/
def isBest (maps : VecMap CRTTrack TVector3 × VecMap TVector3 CRTTrack) (scores : CRTTrack → ℚ)
    (usedScores : List ℚ) (track : CRTTrack) : Bool :=
  if scores track > 0.000001 then scanHits maps.2 scores usedScores track (maps.1 track) true
  else false

/-- Lines 358-384: one iteration of the selection loop on the state `(matches, usedScores)`. -/
def selectStep (maps : VecMap CRTTrack TVector3 × VecMap TVector3 CRTTrack)
    (scores : CRTTrack → ℚ) (st : List CRTTrack × List ℚ) (track : CRTTrack) :
    List CRTTrack × List ℚ :=
  if isBest maps scores st.2 track then (st.1 ++ [track], scores track :: st.2) else st

/-- The state `(matches, usedScores)` after the selection loop of the event whose candidate
list is `tracks` has processed the tracks `done` (a prefix of `tracks`). -/
def selectRun (tracks : List CRTTrack) (scores : CRTTrack → ℚ) (done : List CRTTrack) :
    List CRTTrack × List ℚ :=
  done.foldl (selectStep (buildMaps tracks) scores) ([], [])

/-- Lines 320-384: the match list of an event with candidate list `tracks`. -/
def selectMatches (tracks : List CRTTrack) (scores : CRTTrack → ℚ) : List CRTTrack :=
  (selectRun tracks scores tracks).1

/-- The endpoint values of a track as the deduplication sees them: top, mid, and bottom with
its x replaced by 0. -/
def endpoints (t : CRTTrack) : List TVector3 :=
  t.top.toList ++ t.mid.toList ++ (t.bot.map xFixedBot).toList

/-- Two tracks share at least one endpoint value. -/
def sharesEndpoint (a b : CRTTrack) : Prop :=
  ∃ h, h ∈ endpoints a ∧ h ∈ endpoints b

/-- The track `s` is a sibling of `t` in the candidate list: another, non-equal track of the list that
shares an endpoint value with `t`. -/
def Sibling (tracks : List CRTTrack) (t s : CRTTrack) : Prop :=
  s ∈ tracks ∧ s ≠ t ∧ sharesEndpoint t s

/-- The acceptance rule as the specification words it, for a track `t` of the candidate list
`tracks` when `accepted` is the list of tracks accepted earlier in the pass. -/
def AcceptRule (tracks : List CRTTrack) (scores : CRTTrack → ℚ) (accepted : List CRTTrack)
    (t : CRTTrack) : Prop :=
  scores t > 0.000001 ∧
  (∀ s, Sibling tracks t s → ¬ scores t < scores s) ∧
  ((¬ ∃ s, Sibling tracks t s ∧ scores s = scores t) ∨ scores t ∉ accepted.map scores)

/-! ## Wire-plane intersection (`intersection`, `wireHitIntersections`, lines 452-511) -/

/-- Lines 495-502 of `intersection` on the coordinates of the plane-0 wire, over any ordered
field: the slope `m1` after the sign choice.  The parameter `invSqrt3` is the value of the
expression `1.0 / sqrt(3.0)` of line 496. -/
def stereoSlopeOf {K : Type} [LinearOrderedField K] (invSqrt3 z1 z2 y1 y2 : K) : K :=
  let p0y : K × K := if z1 < z2 then (y1, y2) else (y2, y1)
  if p0y.2 > p0y.1 then invSqrt3 * -1 else invSqrt3

/-- Line 505 of `intersection` on coordinates, over any field: the solved `z` of the crossing
of wire 1 (first endpoint `(p1z1, p1y1)`) and wire 0 (first endpoint `(p0z1, p0y1)`). -/
def solvedZOf {K : Type} [Field K] (m1 p1z1 p1y1 p0z1 p0y1 : K) : K :=
  (m1 * (p1z1 + p0z1) + p0y1 - p1y1) / (2 * m1)

/-- Line 507 of `intersection` on coordinates, over any field: the solved `y`. -/
def solvedYOf {K : Type} [Field K] (m1 z p1z1 p1y1 : K) : K :=
  m1 * (z - p1z1) + p1y1

/-- Lines 495-502 of `intersection`: the slope `m1` for the plane-0 wire. -/
def stereoSlope (invSqrt3 : ℚ) (plane0 : Wire) : ℚ :=
  stereoSlopeOf invSqrt3 plane0.z1 plane0.z2 plane0.y1 plane0.y2

/-- Line 505 of `intersection`: the solved `z` of the crossing of wire 1 and wire 0. -/
def solvedZ (invSqrt3 : ℚ) (plane1 plane0 : Wire) : ℚ :=
  solvedZOf (stereoSlope invSqrt3 plane0) plane1.z1 plane1.y1 plane0.z1 plane0.y1

/-- Line 507 of `intersection`: the solved `y`. -/
def solvedY (invSqrt3 : ℚ) (plane1 plane0 : Wire) : ℚ :=
  solvedYOf (stereoSlope invSqrt3 plane0) (solvedZ invSqrt3 plane1 plane0) plane1.z1 plane1.y1

/-- Lines 488-511: `intersection(plane2, plane1, plane0)`. -/
def intersection (invSqrt3 : ℚ) (plane2 plane1 plane0 : Wire) : Option TVector3 :=
  if plane2.plane ≠ 2 ∨ plane1.plane ≠ 1 ∨ plane0.plane ≠ 0 then none
  else some ⟨plane0.x1, solvedY invSqrt3 plane1 plane0, plane2.z1⟩

/-- The element `wires[channel]` of the catalogue for an `int` index; `none` stands for an
index outside the vector, where the program has no defined behaviour. -/
def wireAt (wires : List Wire) (channel : Int) : Option Wire :=
  if 0 ≤ channel then wires[channel.toNat]? else none

/-- Lines 457-466: the three buckets `(plane2, plane1, plane0)` of `wireHitIntersections`. -/
def splitPlanes (tpcPlane : List WireHit) : List WireHit × List WireHit × List WireHit :=
  tpcPlane.foldl
    (fun acc whit =>
      if whit.plane = 2 then (acc.1 ++ [whit], acc.2.1, acc.2.2)
      else if whit.plane = 1 then (acc.1, acc.2.1 ++ [whit], acc.2.2)
      else (acc.1, acc.2.1, acc.2.2 ++ [whit]))
    ([], [], [])

/-- Lines 474-482: the loop over `plane0` for fixed `p2`, `p1`; `none` when a catalogue index
is out of range. -/
def loopPlane0 (invSqrt3 : ℚ) (wires : List Wire) (p2 p1 : WireHit) :
    List WireHit → List TVector3 → Option (List TVector3)
  | [], intersects => some intersects
  | p0 :: rest, intersects =>
    if p1.peakTick - p0.peakTick < 3 ∨ p1.peakTick - p0.peakTick > 4 then
      loopPlane0 invSqrt3 wires p2 p1 rest intersects
    else
      match wireAt wires p2.channel, wireAt wires p1.channel, wireAt wires p0.channel with
      | some w2, some w1, some w0 =>
        match intersection invSqrt3 w2 w1 w0 with
        | some pt => loopPlane0 invSqrt3 wires p2 p1 rest (intersects ++ [pt])
        | none => loopPlane0 invSqrt3 wires p2 p1 rest intersects
      | _, _, _ => none

/-- Lines 470-483: the loop over `plane1` for a fixed `p2`. -/
def loopPlane1 (invSqrt3 : ℚ) (wires : List Wire) (plane0 : List WireHit) (p2 : WireHit) :
    List WireHit → List TVector3 → Option (List TVector3)
  | [], intersects => some intersects
  | p1 :: rest, intersects =>
    if p2.peakTick - p1.peakTick < 3 ∨ p2.peakTick - p1.peakTick > 4 then
      loopPlane1 invSqrt3 wires plane0 p2 rest intersects
    else
      match loopPlane0 invSqrt3 wires p2 p1 plane0 intersects with
      | some intersects' => loopPlane1 invSqrt3 wires plane0 p2 rest intersects'
      | none => none

/-- Lines 468-484: the loop over `plane2`. -/
def loopPlane2 (invSqrt3 : ℚ) (wires : List Wire) (plane1 plane0 : List WireHit) :
    List WireHit → List TVector3 → Option (List TVector3)
  | [], intersects => some intersects
  | p2 :: rest, intersects =>
    match loopPlane1 invSqrt3 wires plane0 p2 plane1 intersects with
    | some intersects' => loopPlane2 invSqrt3 wires plane1 plane0 rest intersects'
    | none => none

/-- Lines 452-485: `wireHitIntersections(wires, tpcPlane, intersects)`; the result is the
vector `intersects` on return. -/
def wireHitIntersections (invSqrt3 : ℚ) (wires : List Wire) (tpcPlane : List WireHit)
    (intersects : List TVector3) : Option (List TVector3) :=
  loopPlane2 invSqrt3 wires (splitPlanes tpcPlane).2.1 (splitPlanes tpcPlane).2.2
    (splitPlanes tpcPlane).1 intersects

/-- A time difference lies in the closed coincidence window `[3, 4]`. -/
abbrev inWindow (d : ℚ) : Prop := 3 ≤ d ∧ d ≤ 4

/-- The triples `(p2, p1, p0)` the three nested loops range over, in loop order. -/
def hitTriples (tpcPlane : List WireHit) : List (WireHit × WireHit × WireHit) :=
  (tpcPlane.filter (fun h => h.plane = 2)).flatMap (fun p2 =>
    (tpcPlane.filter (fun h => h.plane ≠ 2 ∧ h.plane = 1)).flatMap (fun p1 =>
      (tpcPlane.filter (fun h => h.plane ≠ 2 ∧ h.plane ≠ 1)).map (fun p0 => (p2, p1, p0))))

/-- The points emitted for one triple of hits: the intersection of the three catalogue wires
when both time differences are in the window and the wires are on planes `(2, 1, 0)`,
nothing otherwise. -/
def tripleOutput (invSqrt3 : ℚ) (wires : List Wire) (tr : WireHit × WireHit × WireHit) :
    List TVector3 :=
  if inWindow (tr.1.peakTick - tr.2.1.peakTick) ∧
      inWindow (tr.2.1.peakTick - tr.2.2.peakTick) then
    match wireAt wires tr.1.channel, wireAt wires tr.2.1.channel,
        wireAt wires tr.2.2.channel with
    | some w2, some w1, some w0 => (intersection invSqrt3 w2 w1 w0).toList
    | _, _, _ => []
  else []

/-- The point `pt` is the intersection of three wires of the catalogue whose plane ids are
`(2, 1, 0)`. -/
def FromPlanes210 (invSqrt3 : ℚ) (wires : List Wire) (pt : TVector3) : Prop :=
  ∃ a b c, a ∈ wires ∧ b ∈ wires ∧ c ∈ wires ∧ a.plane = 2 ∧ b.plane = 1 ∧ c.plane = 0 ∧
    intersection invSqrt3 a b c = some pt

/-- Every sampled point of the track coincides with a reconstructed point of the detector
half that matches the sign of its x (`intersects0` for negative x, `intersects1` otherwise). -/
def Coincides (intersects0 intersects1 : List TVector3) (track : CRTTrack) : Prop :=
  ∀ pt ∈ sampledPoints track, pt ∈ (if pt.x < 0 then intersects0 else intersects1)

/-- The number of points the walk started at `pt` visits: the least `n` with
`pt.y - 5 * n ≤ -200`. -/
def walkLength (pt : TVector3) : Nat := ⌈(pt.y + 200) / 5⌉.toNat

/-- The point reached from `pt` after `k` steps of the walk: `k` times
`(slopeX * 5, 5, slopeZ * 5)` is subtracted. -/
def walkPointAt (slopeX slopeZ : ℚ) (pt : TVector3) (k : Nat) : TVector3 :=
  ⟨pt.x - k * (slopeX * 5), pt.y - k * 5, pt.z - k * (slopeZ * 5)⟩

/-! ## One event, end to end (`wires`, lines 117-384) -/

/-- Lines 208-214: the comparator handed to `std::sort` (by time, then vertical plane
first). -/
def whitLess (a b : WireHit) : Bool :=
  if a.peakTick < b.peakTick then true
  else if a.peakTick = b.peakTick then decide (a.plane > b.plane)
  else false

/-- Lines 207-214: `std::sort(whits.begin(), whits.end(), comparator)`.  The order that
`std::sort` gives to hits the comparator does not separate is unspecified; the model takes
the stable order. -/
def sortWhits (whits : List WireHit) : List WireHit :=
  whits.mergeSort (fun a b => !whitLess b a)

/-- Lines 216-223: the hits of the two detector halves `(tpc0, tpc1)`. -/
def splitTpc (whits : List WireHit) : List WireHit × List WireHit :=
  whits.foldl
    (fun acc whit => if whit.tpc = 0 then (acc.1 ++ [whit], acc.2) else (acc.1, acc.2 ++ [whit]))
    ([], [])

/-- What one iteration of the event loop computes: the candidate tracks, the reconstructed
points of the two detector halves, and the match list (the vector `matches`). -/
structure EventResult where
  tracks : List CRTTrack
  intersects0 : List TVector3
  intersects1 : List TVector3
  matchList : List CRTTrack

/-- Lines 117-384: one event.  `NHeightBins` is the constant of `utils.h`; `none` stands for
an index out of range in one of the steps. -/
def wiresEvent (ytop ymid invSqrt3 : ℚ) (NHeightBins : Nat) (wires : List Wire)
    (chits : List CRTHit) (whits : List WireHit) : Option EventResult :=
  match makeTracks ytop ymid chits with
  | none => none
  | some tracks =>
    match wireHitIntersections invSqrt3 wires (splitTpc (sortWhits whits)).1 [],
        wireHitIntersections invSqrt3 wires (splitTpc (sortWhits whits)).2 [] with
    | some intersects0, some intersects1 =>
      some ⟨tracks, intersects0, intersects1,
        selectMatches tracks
          (scoreTrack (IntersectsByHeight.at_y ⟨NHeightBins, intersects0⟩)
            (IntersectsByHeight.at_y ⟨NHeightBins, intersects1⟩))⟩
    | _, _ => none

/-! ## The two-list and filter formulations of track building -/

/-- The acceptance test of a completion (§4.2 step 2): the projection of `track` to the
height of `bhit` has the x sign of `bhit` and lies at distance below 600 from it. -/
def qualifies (track : CRTTrack) (bhit : CRTHit) : Bool :=
  decide (decide ((track.projectY bhit.y).x < 0) = decide (bhit.x < 0) ∧
    ((⟨bhit.x, bhit.y, bhit.z⟩ : TVector3).sub (track.projectY bhit.y)).MagLt 600 = true)

/-- The completions of one seed: one three-endpoint track for each qualifying bottom hit, in
the order of the bottom hits. -/
def completionsOf (track : CRTTrack) (bot : List CRTHit) : List CRTTrack :=
  (bot.filter (qualifies track)).map
    (fun bhit => CRTTrack.withBot track (track.projectY bhit.y).x bhit.y bhit.z)

/-- Bottom completion in the two-list formulation of the specification: the output list is
the concatenation, over the pending seeds in order, of their completions; with no bottom hit
the seeds are the output. -/
def bottomCompletionTwoList (bot : List CRTHit) (seeds : List CRTTrack) : List CRTTrack :=
  if bot ≠ [] then seeds.flatMap (fun seed => completionsOf seed bot) else seeds

/-- The fallback pair-tracks in generation order: per bottom hit, all (top, bottom) pairs,
then all (mid, bottom) pairs. -/
def fallbackList (top mid bot : List CRTHit) : List CRTTrack :=
  bot.flatMap (fun bhit =>
    top.map (fun thit => CRTTrack.topBot thit.x thit.y thit.z bhit.x bhit.y bhit.z) ++
      mid.map (fun mhit => CRTTrack.midBot mhit.x mhit.y mhit.z bhit.x bhit.y bhit.z))

/-- The pair-track `incomp` is subsumed by one of the tracks `completed`: some track `comp`
among them satisfies `botEq` and (`topEq` or `midEq`). -/
def subsumedBy (completed : List CRTTrack) (incomp : CRTTrack) : Bool :=
  completed.any (fun comp => incomp.botEq comp && (incomp.topEq comp || incomp.midEq comp))

/-- Redundancy removal as a filter, the formulation of the specification: the first
`firstIncomplete` tracks unchanged, followed by the later tracks that none of the first
`firstIncomplete` subsumes. -/
def removeRedundantFilter (firstIncomplete : Nat) (tracks : List CRTTrack) : List CRTTrack :=
  tracks.take firstIncomplete ++
    (tracks.drop firstIncomplete).filter
      (fun incomp => !subsumedBy (tracks.take firstIncomplete) incomp)

/-! ## Sample data used by the instance theorems -/

/-- A two-endpoint candidate with top `(1, 2, 3)` and mid `(0, 0, 0)`. -/
def sampleA : CRTTrack := ⟨0, 0, 0, some ⟨1, 2, 3⟩, some ⟨0, 0, 0⟩, none⟩

/-- A two-endpoint candidate with the top of `sampleA` and mid `(5, 0, 0)`. -/
def sampleB : CRTTrack := ⟨5, 0, 0, some ⟨1, 2, 3⟩, some ⟨5, 0, 0⟩, none⟩

/-- Scores 0.8 for `sampleA` and 0.5 for every other track. -/
def sampleScores : CRTTrack → ℚ := fun t => if t = sampleA then 0.8 else 0.5

/-- A catalogue of three wires: channel 0 on plane 0, channel 1 on plane 1, channel 2 on
plane 2, all at `x = -200`. -/
def sampleWires : List Wire :=
  [⟨0, 0, -200, 0, 0, -200, 10, 10⟩, ⟨1, 1, -200, 0, 20, -200, 10, 10⟩,
   ⟨2, 2, -200, -200, 5, -200, 200, 5⟩]

/-- A hit on plane `plane`, channel `plane`, at peak time `t`. -/
def sampleWireHit (plane : Int) (t : ℚ) : WireHit := ⟨plane, 0, 0, plane, 0, t⟩

/-- The value of `1.0 / sqrt(3.0)` to sixteen decimal places. -/
def sampleInvSqrt3 : ℚ := 0.5773502691896258

/-- Five hits of one detector half: plane 0 at times 0 and -0.1, plane 1 at time 4, plane 2
at times 6.9 and 7. -/
def sampleHits : List WireHit :=
  [sampleWireHit 0 (-0.1), sampleWireHit 0 0, sampleWireHit 1 4, sampleWireHit 2 6.9,
   sampleWireHit 2 7]

/-- Three tagger hits at heights 300, 250 and -300. -/
def sampleChits : List CRTHit := [⟨10, 300, 0, 0⟩, ⟨10, 250, 0, 0⟩, ⟨20, -300, 5, 0⟩]

/-- A two-endpoint candidate with mid `(1, -197, 0)` and bottom `(1, -300, 0)`: its walk has
the single sample `(1, -197, 0)`. -/
def sampleLow : CRTTrack := CRTTrack.midBot 1 (-197) 0 1 (-300) 0

/-- A two-endpoint candidate with top `(7, 8, 9)` and mid `(0, 1, 0)`; it shares no endpoint
value with `sampleA`. -/
def sampleC : CRTTrack := ⟨0, 1, 0, some ⟨7, 8, 9⟩, some ⟨0, 1, 0⟩, none⟩

/-- A two-endpoint candidate with the top of `sampleC` and mid `(5, 1, 0)`; it shares no
endpoint value with `sampleA`. -/
def sampleD : CRTTrack := ⟨5, 1, 0, some ⟨7, 8, 9⟩, some ⟨5, 1, 0⟩, none⟩

/-- The score 0.5 for every track. -/
def sampleHalf : CRTTrack → ℚ := fun _ => 0.5

/-- Three wire hits of one detector half without a coincidence: plane 2 at time 6.9, plane 1
at time 4, plane 0 at time 0. -/
def sampleQuietHits : List WireHit :=
  [sampleWireHit 2 6.9, sampleWireHit 1 4, sampleWireHit 0 0]

/-! ## Theorems: match selection -/

theorem mem_recordHit_fst (tr : CRTTrack) (o : Option TVector3)
    (m : VecMap CRTTrack TVector3 × VecMap TVector3 CRTTrack) (t : CRTTrack) (h : TVector3) :
    h ∈ (recordHit tr o m).1 t ↔ h ∈ m.1 t ∨ (t = tr ∧ o = some h) := by
  cases o with
  | none => simp [recordHit]
  | some v =>
    by_cases e : t = tr
    · simp [recordHit, VecMap.push, e, eq_comm]
    · simp [recordHit, VecMap.push, e]

theorem mem_recordHit_snd (tr : CRTTrack) (o : Option TVector3)
    (m : VecMap CRTTrack TVector3 × VecMap TVector3 CRTTrack) (h : TVector3) (s : CRTTrack) :
    s ∈ (recordHit tr o m).2 h ↔ s ∈ m.2 h ∨ (s = tr ∧ o = some h) := by
  cases o with
  | none => simp [recordHit]
  | some v =>
    by_cases e : h = v
    · simp [recordHit, VecMap.push, e]
    · have e' : ¬ v = h := fun q => e q.symm
      simp [recordHit, VecMap.push, e, e']

theorem mem_endpoints (t : CRTTrack) (h : TVector3) :
    h ∈ endpoints t ↔ t.top = some h ∨ t.mid = some h ∨ t.bot.map xFixedBot = some h := by
  simp only [endpoints, List.mem_append, Option.mem_toList, Option.mem_def, or_assoc]

theorem mem_recordTrack_fst (m : VecMap CRTTrack TVector3 × VecMap TVector3 CRTTrack)
    (tr t : CRTTrack) (h : TVector3) :
    h ∈ (recordTrack m tr).1 t ↔ h ∈ m.1 t ∨ (t = tr ∧ h ∈ endpoints tr) := by
  simp only [recordTrack, mem_recordHit_fst, mem_endpoints]
  tauto

theorem mem_recordTrack_snd (m : VecMap CRTTrack TVector3 × VecMap TVector3 CRTTrack)
    (tr : CRTTrack) (h : TVector3) (s : CRTTrack) :
    s ∈ (recordTrack m tr).2 h ↔ s ∈ m.2 h ∨ (s = tr ∧ h ∈ endpoints tr) := by
  simp only [recordTrack, mem_recordHit_snd, mem_endpoints]
  tauto

theorem mem_foldl_recordTrack_fst (tracks : List CRTTrack)
    (m : VecMap CRTTrack TVector3 × VecMap TVector3 CRTTrack) (t : CRTTrack) (h : TVector3) :
    h ∈ (tracks.foldl recordTrack m).1 t ↔ h ∈ m.1 t ∨ (t ∈ tracks ∧ h ∈ endpoints t) := by
  induction tracks generalizing m with
  | nil => simp
  | cons a l ih =>
    rw [List.foldl_cons, ih, mem_recordTrack_fst, List.mem_cons]
    constructor
    · rintro ((h1 | ⟨rfl, h2⟩) | ⟨h3, h4⟩)
      · exact Or.inl h1
      · exact Or.inr ⟨Or.inl rfl, h2⟩
      · exact Or.inr ⟨Or.inr h3, h4⟩
    · rintro (h1 | ⟨rfl | h3, h4⟩)
      · exact Or.inl (Or.inl h1)
      · exact Or.inl (Or.inr ⟨rfl, h4⟩)
      · exact Or.inr ⟨h3, h4⟩

theorem mem_foldl_recordTrack_snd (tracks : List CRTTrack)
    (m : VecMap CRTTrack TVector3 × VecMap TVector3 CRTTrack) (h : TVector3) (s : CRTTrack) :
    s ∈ (tracks.foldl recordTrack m).2 h ↔ s ∈ m.2 h ∨ (s ∈ tracks ∧ h ∈ endpoints s) := by
  induction tracks generalizing m with
  | nil => simp
  | cons a l ih =>
    rw [List.foldl_cons, ih, mem_recordTrack_snd, List.mem_cons]
    constructor
    · rintro ((h1 | ⟨rfl, h2⟩) | ⟨h3, h4⟩)
      · exact Or.inl h1
      · exact Or.inr ⟨Or.inl rfl, h2⟩
      · exact Or.inr ⟨Or.inr h3, h4⟩
    · rintro (h1 | ⟨rfl | h3, h4⟩)
      · exact Or.inl (Or.inl h1)
      · exact Or.inl (Or.inr ⟨rfl, h4⟩)
      · exact Or.inr ⟨h3, h4⟩

/-- The vector `trackToHits[t]` holds exactly the endpoint values of `t`, when `t` is a
candidate. -/
theorem mem_trackToHits (tracks : List CRTTrack) (t : CRTTrack) (h : TVector3) :
    h ∈ (buildMaps tracks).1 t ↔ t ∈ tracks ∧ h ∈ endpoints t := by
  simp [buildMaps, mem_foldl_recordTrack_fst, VecMap.empty]

/-- The vector `hitToTracks[h]` holds exactly the candidates having `h` among their endpoint
values. -/
theorem mem_hitToTracks (tracks : List CRTTrack) (h : TVector3) (s : CRTTrack) :
    s ∈ (buildMaps tracks).2 h ↔ s ∈ tracks ∧ h ∈ endpoints s := by
  simp [buildMaps, mem_foldl_recordTrack_snd, VecMap.empty]

/-- What one pass over `htracks` decides. -/
theorem scanTracks_eq_true (scores : CRTTrack → ℚ) (used : List ℚ) (t : CRTTrack)
    (l : List CRTTrack) (best : Bool) :
    scanTracks scores used t l best = true ↔
      best = true ∧ ∀ s ∈ l, s ≠ t →
        ¬ scores t < scores s ∧ ¬ (scores t = scores s ∧ scores t ∈ used) := by
  induction l with
  | nil => simp [scanTracks]
  | cons a l ih =>
    rw [scanTracks]
    by_cases e : t = a
    · subst e
      simp only [if_true, ih, List.mem_cons, forall_eq_or_imp, ne_eq, not_true_eq_false,
        false_implies, true_and]
    · have e' : a ≠ t := fun q => e q.symm
      have key : (∀ s ∈ a :: l, s ≠ t →
          ¬ scores t < scores s ∧ ¬ (scores t = scores s ∧ scores t ∈ used)) ↔
          (¬ scores t < scores a ∧ ¬ (scores t = scores a ∧ scores t ∈ used)) ∧
          ∀ s ∈ l, s ≠ t →
            ¬ scores t < scores s ∧ ¬ (scores t = scores s ∧ scores t ∈ used) := by
        simp only [List.mem_cons, forall_eq_or_imp]
        constructor
        · exact fun h => ⟨h.1 e', h.2⟩
        · exact fun h => ⟨fun _ => h.1, h.2⟩
      rw [key, if_neg e]
      by_cases h1 : scores t < scores a
      · rw [if_pos h1]
        constructor
        · intro h; cases h
        · intro h; exact absurd h1 h.2.1.1
      · rw [if_neg h1]
        by_cases h2 : scores t = scores a
        · rw [if_pos h2]
          by_cases h3 : scores t ∈ used
          · rw [if_pos h3]
            constructor
            · intro h; cases h
            · intro h; exact absurd ⟨h2, h3⟩ h.2.1.2
          · rw [if_neg h3, ih]
            constructor
            · exact fun h => ⟨h.1, ⟨h1, fun q => h3 q.2⟩, h.2⟩
            · exact fun h => ⟨h.1, h.2.2⟩
        · rw [if_neg h2, ih]
          constructor
          · exact fun h => ⟨h.1, ⟨h1, fun q => h2 q.1⟩, h.2⟩
          · exact fun h => ⟨h.1, h.2.2⟩

/-- What the pass over the hits of a track decides. -/
theorem scanHits_eq_true (htt : VecMap TVector3 CRTTrack) (scores : CRTTrack → ℚ)
    (used : List ℚ) (t : CRTTrack) (hits : List TVector3) (best : Bool) :
    scanHits htt scores used t hits best = true ↔
      best = true ∧ ∀ h ∈ hits, ∀ s ∈ htt h, s ≠ t →
        ¬ scores t < scores s ∧ ¬ (scores t = scores s ∧ scores t ∈ used) := by
  induction hits generalizing best with
  | nil => simp [scanHits]
  | cons a l ih =>
    rw [scanHits, ih, scanTracks_eq_true]
    simp only [List.mem_cons, forall_eq_or_imp]
    tauto

/-- The flag `best` of a candidate, in terms of its siblings. -/
theorem isBest_eq_true (tracks : List CRTTrack) (scores : CRTTrack → ℚ) (used : List ℚ)
    (t : CRTTrack) (ht : t ∈ tracks) :
    isBest (buildMaps tracks) scores used t = true ↔
      scores t > 0.000001 ∧ ∀ s, Sibling tracks t s →
        ¬ scores t < scores s ∧ ¬ (scores t = scores s ∧ scores t ∈ used) := by
  unfold isBest
  by_cases h0 : scores t > 0.000001
  · rw [if_pos h0, scanHits_eq_true]
    simp only [true_and, h0]
    constructor
    · rintro h s ⟨hs, hne, v, hv1, hv2⟩
      exact h v ((mem_trackToHits tracks t v).2 ⟨ht, hv1⟩) s
        ((mem_hitToTracks tracks v s).2 ⟨hs, hv2⟩) hne
    · intro h v hv s hs hne
      exact h s ⟨((mem_hitToTracks tracks v s).1 hs).1, hne, v,
        ((mem_trackToHits tracks t v).1 hv).2, ((mem_hitToTracks tracks v s).1 hs).2⟩
  · rw [if_neg h0]
    constructor
    · intro h; cases h
    · intro h; exact absurd h.1 h0

/-- The set `usedScores` holds exactly the scores of the tracks accepted so far. -/
theorem selectStep_used (maps : VecMap CRTTrack TVector3 × VecMap TVector3 CRTTrack)
    (scores : CRTTrack → ℚ) (done : List CRTTrack) (st : List CRTTrack × List ℚ)
    (hst : ∀ q, q ∈ st.2 ↔ q ∈ st.1.map scores) (q : ℚ) :
    q ∈ (done.foldl (selectStep maps scores) st).2 ↔
      q ∈ (done.foldl (selectStep maps scores) st).1.map scores := by
  induction done generalizing st with
  | nil => exact hst q
  | cons a l ih =>
    rw [List.foldl_cons]
    apply ih
    intro r
    unfold selectStep
    by_cases hb : isBest maps scores st.2 a = true
    · rw [if_pos hb]
      simp only [List.mem_cons, List.map_append, List.map_cons, List.map_nil, List.mem_append,
        List.mem_singleton, hst r]
      tauto
    · rw [if_neg hb]
      exact hst r

theorem selectRun_used (tracks : List CRTTrack) (scores : CRTTrack → ℚ) (done : List CRTTrack)
    (q : ℚ) :
    q ∈ (selectRun tracks scores done).2 ↔ q ∈ (selectRun tracks scores done).1.map scores :=
  selectStep_used _ scores done ([], []) (fun _ => Iff.rfl) q

theorem selectRun_snoc (tracks : List CRTTrack) (scores : CRTTrack → ℚ) (done : List CRTTrack)
    (t : CRTTrack) :
    selectRun tracks scores (done ++ [t]) =
      selectStep (buildMaps tracks) scores (selectRun tracks scores done) t := by
  simp [selectRun, List.foldl_append]

/-- The flag `best` of a candidate at its turn is the acceptance rule of the specification. -/
theorem isBest_iff_acceptRule (tracks : List CRTTrack) (scores : CRTTrack → ℚ)
    (done : List CRTTrack) (t : CRTTrack) (ht : t ∈ tracks) :
    isBest (buildMaps tracks) scores (selectRun tracks scores done).2 t = true ↔
      AcceptRule tracks scores (selectRun tracks scores done).1 t := by
  rw [isBest_eq_true tracks scores _ t ht, AcceptRule, selectRun_used]
  constructor
  · rintro ⟨h0, h⟩
    refine ⟨h0, fun s hs => (h s hs).1, ?_⟩
    by_cases hu : scores t ∈ List.map scores (selectRun tracks scores done).1
    · left
      rintro ⟨s, hs, he⟩
      exact (h s hs).2 ⟨he.symm, hu⟩
    · exact Or.inr hu
  · rintro ⟨h0, h1, h2⟩
    refine ⟨h0, fun s hs => ⟨h1 s hs, ?_⟩⟩
    rintro ⟨he, hu⟩
    rcases h2 with h2 | h2
    · exact h2 ⟨s, hs, he.symm⟩
    · exact h2 hu

/-- Claim C1 (TrackDeduplicator acceptance rule).  In the pass over the candidate list
`pre ++ t :: suf`, when the turn of `t` comes the match list either grows by `t` or is left
as it is, and it grows by `t` if and only if (1) the score of `t` exceeds `0.000001`, (2) no
sibling of `t` (a non-equal candidate sharing an endpoint value: top, mid, or bottom with x
replaced by 0) has a strictly greater score, and (3) `t` has no sibling of exactly equal
score, or its score is not the score of a track accepted earlier in the pass. -/
theorem dedup_accepts_iff_rule (pre suf : List CRTTrack) (t : CRTTrack) (scores : CRTTrack → ℚ) :
    ((selectRun (pre ++ t :: suf) scores (pre ++ [t])).1 =
        (selectRun (pre ++ t :: suf) scores pre).1 ++ [t] ↔
      AcceptRule (pre ++ t :: suf) scores (selectRun (pre ++ t :: suf) scores pre).1 t) ∧
    ((selectRun (pre ++ t :: suf) scores (pre ++ [t])).1 =
        (selectRun (pre ++ t :: suf) scores pre).1 ↔
      ¬ AcceptRule (pre ++ t :: suf) scores (selectRun (pre ++ t :: suf) scores pre).1 t) ∧
    selectMatches (pre ++ t :: suf) scores =
      (suf.foldl (selectStep (buildMaps (pre ++ t :: suf)) scores)
        (selectRun (pre ++ t :: suf) scores (pre ++ [t]))).1 := by
  have ht : t ∈ pre ++ t :: suf := by simp
  have hiff := isBest_iff_acceptRule (pre ++ t :: suf) scores pre t ht
  refine ⟨?_, ?_, ?_⟩
  · rw [selectRun_snoc, ← hiff]
    unfold selectStep
    by_cases hb : isBest (buildMaps (pre ++ t :: suf)) scores
        (selectRun (pre ++ t :: suf) scores pre).2 t = true
    · simp [hb]
    · simp [hb]
  · rw [selectRun_snoc, ← hiff]
    unfold selectStep
    by_cases hb : isBest (buildMaps (pre ++ t :: suf)) scores
        (selectRun (pre ++ t :: suf) scores pre).2 t = true
    · simp [hb]
    · simp [hb]
  · have e : pre ++ t :: suf = (pre ++ [t]) ++ suf := by simp
    unfold selectMatches
    conv_lhs => rw [selectRun]
    conv_lhs => arg 1; arg 3; rw [e]
    rw [List.foldl_append]
    rfl

theorem sharesEndpoint_symm {a b : CRTTrack} (h : sharesEndpoint a b) : sharesEndpoint b a := by
  obtain ⟨v, h1, h2⟩ := h
  exact ⟨v, h2, h1⟩

theorem selectMatches_pair (x y : CRTTrack) (scores : CRTTrack → ℚ) :
    selectMatches [x, y] scores =
      (selectStep (buildMaps [x, y]) scores
        (selectStep (buildMaps [x, y]) scores ([], []) x) y).1 := rfl

theorem sibling_pair_left {x y s : CRTTrack} (h : Sibling [x, y] x s) : s = y := by
  obtain ⟨hm, hne, _⟩ := h
  simp only [List.mem_cons, List.mem_singleton, List.not_mem_nil, or_false] at hm
  rcases hm with rfl | rfl
  · exact absurd rfl hne
  · rfl

theorem sibling_pair_right {x y s : CRTTrack} (h : Sibling [x, y] y s) : s = x := by
  obtain ⟨hm, hne, _⟩ := h
  simp only [List.mem_cons, List.mem_singleton, List.not_mem_nil, or_false] at hm
  rcases hm with rfl | rfl
  · rfl
  · exact absurd rfl hne

/-- Claim C2 (the higher score wins).  For two distinct candidates `hi`, `lo` that share an
endpoint value, with `scores hi > scores lo` and `scores hi > 0.000001`, the match list of
the candidate list `[hi, lo]` and of the candidate list `[lo, hi]` is exactly `[hi]`. -/
theorem dedup_higher_score_wins (hi lo : CRTTrack) (scores : CRTTrack → ℚ)
    (hne : hi ≠ lo) (hshare : sharesEndpoint hi lo)
    (hgt : scores hi > scores lo) (heps : scores hi > 0.000001) :
    selectMatches [hi, lo] scores = [hi] ∧ selectMatches [lo, hi] scores = [hi] := by
  have hlt : scores lo < scores hi := hgt
  constructor
  · -- order [hi, lo]
    have b1 : isBest (buildMaps [hi, lo]) scores [] hi = true := by
      rw [isBest_eq_true [hi, lo] scores [] hi (by simp)]
      refine ⟨heps, fun s hs => ?_⟩
      rw [sibling_pair_left hs]
      exact ⟨not_lt.2 hlt.le, fun q => absurd q.2 (List.not_mem_nil _)⟩
    have b2 : ¬ isBest (buildMaps [hi, lo]) scores [scores hi] lo = true := by
      rw [isBest_eq_true [hi, lo] scores _ lo (by simp)]
      rintro ⟨_, h⟩
      exact (h hi ⟨by simp, hne, sharesEndpoint_symm hshare⟩).1 hlt
    rw [selectMatches_pair]
    simp [selectStep, b1, b2]
  · -- order [lo, hi]
    have b1 : ¬ isBest (buildMaps [lo, hi]) scores [] lo = true := by
      rw [isBest_eq_true [lo, hi] scores _ lo (by simp)]
      rintro ⟨_, h⟩
      exact (h hi ⟨by simp, hne, sharesEndpoint_symm hshare⟩).1 hlt
    have b2 : isBest (buildMaps [lo, hi]) scores [] hi = true := by
      rw [isBest_eq_true [lo, hi] scores [] hi (by simp)]
      refine ⟨heps, fun s hs => ?_⟩
      rw [sibling_pair_right hs]
      exact ⟨not_lt.2 hlt.le, fun q => absurd q.2 (List.not_mem_nil _)⟩
    rw [selectMatches_pair]
    simp [selectStep, b1, b2]

theorem sampleA_ne_sampleB : sampleA ≠ sampleB := by
  simp [sampleA, sampleB]

theorem sampleA_shares_sampleB : sharesEndpoint sampleA sampleB :=
  ⟨⟨1, 2, 3⟩, by simp [endpoints, sampleA], by simp [endpoints, sampleB]⟩

/-- Instance of C2 with scores 0.8 and 0.5. -/
theorem dedup_higher_score_wins_witness :
    sampleScores sampleA = 0.8 ∧ sampleScores sampleB = 0.5 ∧
    selectMatches [sampleA, sampleB] sampleScores = [sampleA] ∧
    selectMatches [sampleB, sampleA] sampleScores = [sampleA] :=
  ⟨by simp [sampleScores],
   by simp [sampleScores, sampleA, sampleB],
   dedup_higher_score_wins sampleA sampleB sampleScores sampleA_ne_sampleB
    sampleA_shares_sampleB
    (by simp [sampleScores, sampleA, sampleB]; norm_num)
    (by simp [sampleScores]; norm_num)⟩

/-- Claim C3 (ties are broken by generation order).  For a candidate list `[A, B]` of two
distinct tracks that share an endpoint value and have the identical score, greater than
`0.000001`, the match list is exactly `[A]`. -/
theorem dedup_tie_first_wins (A B : CRTTrack) (scores : CRTTrack → ℚ)
    (hne : A ≠ B) (hshare : sharesEndpoint A B)
    (heq : scores A = scores B) (heps : scores A > 0.000001) :
    selectMatches [A, B] scores = [A] := by
  have b1 : isBest (buildMaps [A, B]) scores [] A = true := by
    rw [isBest_eq_true [A, B] scores [] A (by simp)]
    refine ⟨heps, fun s hs => ?_⟩
    rw [sibling_pair_left hs]
    exact ⟨not_lt.2 heq.ge, fun q => absurd q.2 (List.not_mem_nil _)⟩
  have b2 : ¬ isBest (buildMaps [A, B]) scores [scores A] B = true := by
    rw [isBest_eq_true [A, B] scores _ B (by simp)]
    rintro ⟨_, h⟩
    exact (h A ⟨by simp, hne, sharesEndpoint_symm hshare⟩).2 ⟨heq.symm, by simp [heq]⟩
  rw [selectMatches_pair]
  simp [selectStep, b1, b2]

/-- Instance of C3 with the common score 0.6. -/
theorem dedup_tie_first_wins_witness :
    selectMatches [sampleA, sampleB] (fun _ => 0.6) = [sampleA] :=
  dedup_tie_first_wins sampleA sampleB (fun _ => 0.6) sampleA_ne_sampleB
    sampleA_shares_sampleB rfl (by norm_num)

/-! ## Theorems: wire-plane intersection -/

theorem not_inWindow_iff (d : ℚ) : ¬ inWindow d ↔ (d < 3 ∨ d > 4) := by
  unfold inWindow
  rw [not_and_or, not_le, not_le]

theorem splitPlanes_foldl (l : List WireHit) (a b c : List WireHit) :
    l.foldl
      (fun acc whit =>
        if whit.plane = 2 then (acc.1 ++ [whit], acc.2.1, acc.2.2)
        else if whit.plane = 1 then (acc.1, acc.2.1 ++ [whit], acc.2.2)
        else (acc.1, acc.2.1, acc.2.2 ++ [whit]))
      (a, b, c) =
    (a ++ l.filter (fun h => h.plane = 2),
     b ++ l.filter (fun h => h.plane ≠ 2 ∧ h.plane = 1),
     c ++ l.filter (fun h => h.plane ≠ 2 ∧ h.plane ≠ 1)) := by
  induction l generalizing a b c with
  | nil => simp
  | cons h l ih =>
    rw [List.foldl_cons]
    by_cases h2 : h.plane = 2
    · simp [h2, ih]
    · by_cases h1 : h.plane = 1
      · simp [h2, h1, ih]
      · simp [h2, h1, ih]

/-- The three buckets are the three filters of the input, in input order. -/
theorem splitPlanes_eq (l : List WireHit) :
    splitPlanes l =
      (l.filter (fun h => h.plane = 2),
       l.filter (fun h => h.plane ≠ 2 ∧ h.plane = 1),
       l.filter (fun h => h.plane ≠ 2 ∧ h.plane ≠ 1)) := by
  unfold splitPlanes
  rw [splitPlanes_foldl]
  simp

theorem tripleOutput_of_not_window1 (m : ℚ) (wires : List Wire) (p2 p1 p0 : WireHit)
    (h : ¬ inWindow (p2.peakTick - p1.peakTick)) : tripleOutput m wires (p2, p1, p0) = [] := by
  unfold tripleOutput
  rw [if_neg]
  exact fun q => h q.1

theorem tripleOutput_of_not_window0 (m : ℚ) (wires : List Wire) (p2 p1 p0 : WireHit)
    (h : ¬ inWindow (p1.peakTick - p0.peakTick)) : tripleOutput m wires (p2, p1, p0) = [] := by
  unfold tripleOutput
  rw [if_neg]
  exact fun q => h q.2

theorem loopPlane0_eq (m : ℚ) (wires : List Wire) (p2 p1 : WireHit)
    (hw : inWindow (p2.peakTick - p1.peakTick))
    (h2 : (wireAt wires p2.channel).isSome) (h1 : (wireAt wires p1.channel).isSome)
    (l : List WireHit) (hl : ∀ p0 ∈ l, (wireAt wires p0.channel).isSome)
    (acc : List TVector3) :
    loopPlane0 m wires p2 p1 l acc =
      some (acc ++ l.flatMap (fun p0 => tripleOutput m wires (p2, p1, p0))) := by
  induction l generalizing acc with
  | nil => simp [loopPlane0]
  | cons p0 l ih =>
    have hl' : ∀ q ∈ l, (wireAt wires q.channel).isSome :=
      fun q hq => hl q (List.mem_cons_of_mem _ hq)
    have h0 : (wireAt wires p0.channel).isSome := hl p0 (List.mem_cons_self _ _)
    rw [loopPlane0, List.flatMap_cons]
    by_cases hd : p1.peakTick - p0.peakTick < 3 ∨ p1.peakTick - p0.peakTick > 4
    · rw [if_pos hd, ih hl',
        tripleOutput_of_not_window0 m wires p2 p1 p0 ((not_inWindow_iff _).2 hd)]
      simp
    · rw [if_neg hd]
      have hw0 : inWindow (p1.peakTick - p0.peakTick) := by
        by_contra hc
        exact hd ((not_inWindow_iff _).1 hc)
      obtain ⟨w2, e2⟩ := Option.isSome_iff_exists.1 h2
      obtain ⟨w1, e1⟩ := Option.isSome_iff_exists.1 h1
      obtain ⟨w0, e0⟩ := Option.isSome_iff_exists.1 h0
      have ht : tripleOutput m wires (p2, p1, p0) = (intersection m w2 w1 w0).toList := by
        unfold tripleOutput
        rw [if_pos ⟨hw, hw0⟩]
        simp only [e2, e1, e0]
      rw [ht]
      simp only [e2, e1, e0]
      cases hi : intersection m w2 w1 w0 with
      | none => simp [ih hl']
      | some pt => simp [ih hl']

theorem loopPlane1_eq (m : ℚ) (wires : List Wire) (plane0 : List WireHit) (p2 : WireHit)
    (h2 : (wireAt wires p2.channel).isSome)
    (h0 : ∀ p0 ∈ plane0, (wireAt wires p0.channel).isSome)
    (l : List WireHit) (hl : ∀ p1 ∈ l, (wireAt wires p1.channel).isSome)
    (acc : List TVector3) :
    loopPlane1 m wires plane0 p2 l acc =
      some (acc ++ l.flatMap (fun p1 =>
        plane0.flatMap (fun p0 => tripleOutput m wires (p2, p1, p0)))) := by
  induction l generalizing acc with
  | nil => simp [loopPlane1]
  | cons p1 l ih =>
    have hl' : ∀ q ∈ l, (wireAt wires q.channel).isSome :=
      fun q hq => hl q (List.mem_cons_of_mem _ hq)
    rw [loopPlane1, List.flatMap_cons]
    by_cases hd : p2.peakTick - p1.peakTick < 3 ∨ p2.peakTick - p1.peakTick > 4
    · rw [if_pos hd, ih hl']
      have hz : plane0.flatMap (fun p0 => tripleOutput m wires (p2, p1, p0)) = [] := by
        rw [List.flatMap_eq_nil_iff]
        intro p0 _
        exact tripleOutput_of_not_window1 m wires p2 p1 p0 ((not_inWindow_iff _).2 hd)
      rw [hz]
      simp
    · rw [if_neg hd]
      have hw : inWindow (p2.peakTick - p1.peakTick) := by
        by_contra hc
        exact hd ((not_inWindow_iff _).1 hc)
      rw [loopPlane0_eq m wires p2 p1 hw h2 (hl p1 (List.mem_cons_self _ _)) plane0 h0 acc]
      simp only []
      rw [ih hl']
      simp

theorem loopPlane2_eq (m : ℚ) (wires : List Wire) (plane1 plane0 : List WireHit)
    (h1 : ∀ p1 ∈ plane1, (wireAt wires p1.channel).isSome)
    (h0 : ∀ p0 ∈ plane0, (wireAt wires p0.channel).isSome)
    (l : List WireHit) (hl : ∀ p2 ∈ l, (wireAt wires p2.channel).isSome)
    (acc : List TVector3) :
    loopPlane2 m wires plane1 plane0 l acc =
      some (acc ++ l.flatMap (fun p2 => plane1.flatMap (fun p1 =>
        plane0.flatMap (fun p0 => tripleOutput m wires (p2, p1, p0))))) := by
  induction l generalizing acc with
  | nil => simp [loopPlane2]
  | cons p2 l ih =>
    have hl' : ∀ q ∈ l, (wireAt wires q.channel).isSome :=
      fun q hq => hl q (List.mem_cons_of_mem _ hq)
    rw [loopPlane2, List.flatMap_cons,
      loopPlane1_eq m wires plane0 p2 (hl p2 (List.mem_cons_self _ _)) h0 plane1 h1 acc]
    simp only []
    rw [ih hl']
    simp

/-- When every hit's channel indexes the catalogue, `wireHitIntersections` appends to
`intersects` the emissions of all triples, in loop order. -/
theorem wireHitIntersections_eq (m : ℚ) (wires : List Wire) (tpcPlane : List WireHit)
    (hr : ∀ h ∈ tpcPlane, (wireAt wires h.channel).isSome) (acc : List TVector3) :
    wireHitIntersections m wires tpcPlane acc =
      some (acc ++ (hitTriples tpcPlane).flatMap (tripleOutput m wires)) := by
  unfold wireHitIntersections
  rw [splitPlanes_eq]
  simp only []
  rw [loopPlane2_eq m wires _ _
    (fun q hq => hr q (List.mem_of_mem_filter hq))
    (fun q hq => hr q (List.mem_of_mem_filter hq)) _
    (fun q hq => hr q (List.mem_of_mem_filter hq))]
  unfold hitTriples
  simp [List.flatMap_assoc, List.flatMap_map]

theorem mem_of_wireAt {wires : List Wire} {c : Int} {w : Wire} (h : wireAt wires c = some w) :
    w ∈ wires := by
  unfold wireAt at h
  split at h
  · exact List.getElem?_mem h
  · cases h

theorem mem_hitTriples (tpcPlane : List WireHit) (p2 p1 p0 : WireHit)
    (hp2 : p2 ∈ tpcPlane) (hp1 : p1 ∈ tpcPlane) (hp0 : p0 ∈ tpcPlane)
    (h2 : p2.plane = 2) (h1 : p1.plane = 1) (h0 : p0.plane = 0) :
    (p2, p1, p0) ∈ hitTriples tpcPlane := by
  unfold hitTriples
  simp only [List.mem_flatMap, List.mem_filter, List.mem_map]
  refine ⟨p2, ⟨hp2, by simp [h2]⟩, p1, ⟨hp1, by simp [h1]⟩, p0, ⟨hp0, by simp [h0]⟩, rfl⟩

/-- Claim C4 (coincidence window of `wireHitIntersections`).  Let the hits of one detector half
index the wire catalogue, and let `(p2, p1, p0)` be three of them on planes `(2, 1, 0)`, their
catalogue wires being on planes `(2, 1, 0)` as well.  The function returns the emissions of
all hit triples, the triple `(p2, p1, p0)` is one of them, a point (the intersection of the
three wires) is emitted for it when `t2 - t1` and `t1 - t0` both lie in the closed interval
`[3, 4]`, and no point is emitted for it when either difference lies outside `[3, 4]`. -/
theorem coincidence_window_emits (m : ℚ) (wires : List Wire) (tpcPlane : List WireHit)
    (p2 p1 p0 : WireHit) (w2 w1 w0 : Wire)
    (hr : ∀ h ∈ tpcPlane, (wireAt wires h.channel).isSome)
    (hp2 : p2 ∈ tpcPlane) (hp1 : p1 ∈ tpcPlane) (hp0 : p0 ∈ tpcPlane)
    (h2 : p2.plane = 2) (h1 : p1.plane = 1) (h0 : p0.plane = 0)
    (e2 : wireAt wires p2.channel = some w2) (e1 : wireAt wires p1.channel = some w1)
    (e0 : wireAt wires p0.channel = some w0)
    (c2 : w2.plane = 2) (c1 : w1.plane = 1) (c0 : w0.plane = 0) :
    wireHitIntersections m wires tpcPlane [] =
      some ((hitTriples tpcPlane).flatMap (tripleOutput m wires)) ∧
    (p2, p1, p0) ∈ hitTriples tpcPlane ∧
    (inWindow (p2.peakTick - p1.peakTick) ∧ inWindow (p1.peakTick - p0.peakTick) →
      ∃ pt, intersection m w2 w1 w0 = some pt ∧ tripleOutput m wires (p2, p1, p0) = [pt] ∧
        pt ∈ (hitTriples tpcPlane).flatMap (tripleOutput m wires)) ∧
    (¬ (inWindow (p2.peakTick - p1.peakTick) ∧ inWindow (p1.peakTick - p0.peakTick)) →
      tripleOutput m wires (p2, p1, p0) = []) := by
  have hmem := mem_hitTriples tpcPlane p2 p1 p0 hp2 hp1 hp0 h2 h1 h0
  refine ⟨by simpa using wireHitIntersections_eq m wires tpcPlane hr [], hmem, ?_, ?_⟩
  · intro hw
    have hi : intersection m w2 w1 w0 =
        some ⟨w0.x1, solvedY m w1 w0, w2.z1⟩ := by
      unfold intersection
      rw [if_neg]
      simp [c2, c1, c0]
    have ht : tripleOutput m wires (p2, p1, p0) = [⟨w0.x1, solvedY m w1 w0, w2.z1⟩] := by
      unfold tripleOutput
      rw [if_pos hw]
      simp only [e2, e1, e0, hi, Option.toList]
    refine ⟨_, hi, ht, ?_⟩
    rw [List.mem_flatMap]
    exact ⟨(p2, p1, p0), hmem, by rw [ht]; exact List.mem_singleton_self _⟩
  · intro hw
    unfold tripleOutput
    rw [if_neg hw]

theorem sampleHits_inRange : ∀ h ∈ sampleHits, (wireAt sampleWires h.channel).isSome := by
  simp [sampleHits, sampleWireHit, wireAt, sampleWires]

/-- Instance of C4: with `t2 - t1 = 3` and `t1 - t0 = 4` a point is emitted for the triple;
with `t2 - t1 = 2.9`, or with `t1 - t0 = 4.1`, none is. -/
theorem coincidence_window_emits_witness :
    (∃ pt, tripleOutput sampleInvSqrt3 sampleWires
        (sampleWireHit 2 7, sampleWireHit 1 4, sampleWireHit 0 0) = [pt]) ∧
    tripleOutput sampleInvSqrt3 sampleWires
        (sampleWireHit 2 6.9, sampleWireHit 1 4, sampleWireHit 0 0) = [] ∧
    tripleOutput sampleInvSqrt3 sampleWires
        (sampleWireHit 2 7, sampleWireHit 1 4, sampleWireHit 0 (-0.1)) = [] :=
  ⟨((coincidence_window_emits sampleInvSqrt3 sampleWires sampleHits
      (sampleWireHit 2 7) (sampleWireHit 1 4) (sampleWireHit 0 0)
      ⟨2, 2, -200, -200, 5, -200, 200, 5⟩ ⟨1, 1, -200, 0, 20, -200, 10, 10⟩
      ⟨0, 0, -200, 0, 0, -200, 10, 10⟩
      sampleHits_inRange (by simp [sampleHits]) (by simp [sampleHits]) (by simp [sampleHits])
      rfl rfl rfl rfl rfl rfl rfl rfl rfl).2.2.1
      (by norm_num [sampleWireHit, inWindow])).imp (fun _ h => h.2.1),
   (coincidence_window_emits sampleInvSqrt3 sampleWires sampleHits
      (sampleWireHit 2 6.9) (sampleWireHit 1 4) (sampleWireHit 0 0)
      ⟨2, 2, -200, -200, 5, -200, 200, 5⟩ ⟨1, 1, -200, 0, 20, -200, 10, 10⟩
      ⟨0, 0, -200, 0, 0, -200, 10, 10⟩
      sampleHits_inRange (by simp [sampleHits]) (by simp [sampleHits]) (by simp [sampleHits])
      rfl rfl rfl rfl rfl rfl rfl rfl rfl).2.2.2
      (by norm_num [sampleWireHit, inWindow]),
   (coincidence_window_emits sampleInvSqrt3 sampleWires sampleHits
      (sampleWireHit 2 7) (sampleWireHit 1 4) (sampleWireHit 0 (-0.1))
      ⟨2, 2, -200, -200, 5, -200, 200, 5⟩ ⟨1, 1, -200, 0, 20, -200, 10, 10⟩
      ⟨0, 0, -200, 0, 0, -200, 10, 10⟩
      sampleHits_inRange (by simp [sampleHits]) (by simp [sampleHits]) (by simp [sampleHits])
      rfl rfl rfl rfl rfl rfl rfl rfl rfl).2.2.2
      (by norm_num [sampleWireHit, inWindow])⟩

theorem loopPlane0_from (m : ℚ) (wires : List Wire) (p2 p1 : WireHit) (l : List WireHit)
    (acc out : List TVector3) (h : loopPlane0 m wires p2 p1 l acc = some out)
    (hacc : ∀ pt ∈ acc, FromPlanes210 m wires pt) : ∀ pt ∈ out, FromPlanes210 m wires pt := by
  induction l generalizing acc with
  | nil =>
    simp only [loopPlane0, Option.some.injEq] at h
    subst h
    exact hacc
  | cons p0 l ih =>
    rw [loopPlane0] at h
    split at h
    · exact ih acc h hacc
    · split at h
      · rename_i w2 w1 w0 e2 e1 e0
        split at h
        · rename_i pt hpt
          refine ih _ h ?_
          intro q hq
          rcases List.mem_append.1 hq with hq | hq
          · exact hacc q hq
          · rw [List.mem_singleton] at hq
            subst hq
            have hg : ¬ (w2.plane ≠ 2 ∨ w1.plane ≠ 1 ∨ w0.plane ≠ 0) := by
              intro hc
              unfold intersection at hpt
              rw [if_pos hc] at hpt
              cases hpt
            simp only [ne_eq, not_or, not_not] at hg
            exact ⟨w2, w1, w0, mem_of_wireAt e2, mem_of_wireAt e1, mem_of_wireAt e0,
              hg.1, hg.2.1, hg.2.2, hpt⟩
        · exact ih acc h hacc
      · cases h

theorem loopPlane1_from (m : ℚ) (wires : List Wire) (plane0 : List WireHit) (p2 : WireHit)
    (l : List WireHit) (acc out : List TVector3)
    (h : loopPlane1 m wires plane0 p2 l acc = some out)
    (hacc : ∀ pt ∈ acc, FromPlanes210 m wires pt) : ∀ pt ∈ out, FromPlanes210 m wires pt := by
  induction l generalizing acc with
  | nil =>
    simp only [loopPlane1, Option.some.injEq] at h
    subst h
    exact hacc
  | cons p1 l ih =>
    rw [loopPlane1] at h
    split at h
    · exact ih acc h hacc
    · split at h
      · rename_i mid hmid
        exact ih mid h (loopPlane0_from m wires p2 p1 plane0 acc mid hmid hacc)
      · cases h

theorem loopPlane2_from (m : ℚ) (wires : List Wire) (plane1 plane0 : List WireHit)
    (l : List WireHit) (acc out : List TVector3)
    (h : loopPlane2 m wires plane1 plane0 l acc = some out)
    (hacc : ∀ pt ∈ acc, FromPlanes210 m wires pt) : ∀ pt ∈ out, FromPlanes210 m wires pt := by
  induction l generalizing acc with
  | nil =>
    simp only [loopPlane2, Option.some.injEq] at h
    subst h
    exact hacc
  | cons p2 l ih =>
    rw [loopPlane2] at h
    split at h
    · rename_i mid hmid
      exact ih mid h (loopPlane1_from m wires plane0 p2 plane1 acc mid hmid hacc)
    · cases h

/-- Claim C5 (plane-id guard of `intersection`).  `intersection plane2 plane1 plane0` returns
no point if and only if the plane ids of the three wires are not exactly `(2, 1, 0)`; a point
it returns has the first-endpoint x of the plane-0 wire as its x and the first-endpoint z of
the plane-2 wire as its z (whatever the solved z is); and every point that
`wireHitIntersections` emits is the intersection of three catalogue wires with plane ids
`(2, 1, 0)`. -/
theorem intersection_guard (m : ℚ) (plane2 plane1 plane0 : Wire) :
    (intersection m plane2 plane1 plane0 = none ↔
      ¬ (plane2.plane = 2 ∧ plane1.plane = 1 ∧ plane0.plane = 0)) ∧
    (∀ pt, intersection m plane2 plane1 plane0 = some pt →
      pt.x = plane0.x1 ∧ pt.z = plane2.z1) ∧
    (∀ (wires : List Wire) (tpcPlane : List WireHit) (out : List TVector3),
      wireHitIntersections m wires tpcPlane [] = some out →
      ∀ pt ∈ out, FromPlanes210 m wires pt) := by
  refine ⟨?_, ?_, ?_⟩
  · unfold intersection
    by_cases hg : plane2.plane ≠ 2 ∨ plane1.plane ≠ 1 ∨ plane0.plane ≠ 0
    · rw [if_pos hg]
      simp only [true_iff]
      rintro ⟨a, b, c⟩
      rcases hg with hg | hg | hg
      · exact hg a
      · exact hg b
      · exact hg c
    · rw [if_neg hg]
      simp only [ne_eq, not_or, not_not] at hg
      simp [hg]
  · intro pt h
    unfold intersection at h
    split at h
    · cases h
    · simp only [Option.some.injEq] at h
      subst h
      exact ⟨rfl, rfl⟩
  · intro wires tpcPlane out h
    exact loopPlane2_from m wires _ _ _ [] out h (fun _ hq => absurd hq (List.not_mem_nil _))

/-- Instance of C5 on the sample catalogue: the emitted point has `z = 5`, the z of the
plane-2 wire, while the solved z is `10`; with the plane-1 wire in the place of the plane-2
wire there is no point. -/
theorem intersection_guard_witness :
    intersection sampleInvSqrt3 ⟨2, 2, -200, -200, 5, -200, 200, 5⟩
        ⟨1, 1, -200, 0, 20, -200, 10, 10⟩ ⟨0, 0, -200, 0, 0, -200, 10, 10⟩ =
      some ⟨-200, 5.773502691896258, 5⟩ ∧
    solvedZ sampleInvSqrt3 ⟨1, 1, -200, 0, 20, -200, 10, 10⟩
        ⟨0, 0, -200, 0, 0, -200, 10, 10⟩ = 10 ∧
    intersection sampleInvSqrt3 ⟨1, 1, -200, 0, 20, -200, 10, 10⟩
        ⟨1, 1, -200, 0, 20, -200, 10, 10⟩ ⟨0, 0, -200, 0, 0, -200, 10, 10⟩ = none :=
  ⟨by norm_num [intersection, solvedY, solvedZ, stereoSlope, solvedYOf, solvedZOf,
      stereoSlopeOf, sampleInvSqrt3],
   by norm_num [solvedZ, stereoSlope, solvedZOf, stereoSlopeOf, sampleInvSqrt3],
   (intersection_guard sampleInvSqrt3 ⟨1, 1, -200, 0, 20, -200, 10, 10⟩
      ⟨1, 1, -200, 0, 20, -200, 10, 10⟩ ⟨0, 0, -200, 0, 0, -200, 10, 10⟩).1.2
      (by simp)⟩

/-! ## Theorems: hit classification -/

theorem classify_foldl (ytop ymid : ℚ) (l : List CRTHit) (a b c : List CRTHit) :
    l.foldl (classifyStep ytop ymid) (a, b, c) =
      (a ++ l.filter (fun h => near_top ytop h.y 0.1),
       b ++ l.filter (fun h => !near_top ytop h.y 0.1 && near_mid ymid h.y 0.1),
       c ++ l.filter (fun h => !near_top ytop h.y 0.1 && !near_mid ymid h.y 0.1)) := by
  induction l generalizing a b c with
  | nil => simp
  | cons h l ih =>
    rw [List.foldl_cons]
    by_cases h1 : near_top ytop h.y 0.1 = true
    · have e : classifyStep ytop ymid (a, b, c) h = (a ++ [h], b, c) := by
        simp [classifyStep, h1]
      rw [e, ih]
      simp [h1]
    · by_cases h2 : near_mid ymid h.y 0.1 = true
      · have e : classifyStep ytop ymid (a, b, c) h = (a, b ++ [h], c) := by
          simp [classifyStep, h1, h2]
        rw [e, ih]
        simp [h1, h2]
      · have e : classifyStep ytop ymid (a, b, c) h = (a, b, c ++ [h]) := by
          simp [classifyStep, h1, h2]
        rw [e, ih]
        simp [h1, h2]

/-- The three layer lists are the three filters of the input. -/
theorem classify_eq (ytop ymid : ℚ) (l : List CRTHit) :
    classify ytop ymid l =
      (l.filter (fun h => near_top ytop h.y 0.1),
       l.filter (fun h => !near_top ytop h.y 0.1 && near_mid ymid h.y 0.1),
       l.filter (fun h => !near_top ytop h.y 0.1 && !near_mid ymid h.y 0.1)) := by
  unfold classify
  rw [classify_foldl]
  simp

/-- Claim C7 (HitClassifier, top layer).  A tagger hit whose `y` satisfies `|y - ytop| < 0.1`
is appended to the top list and to neither the mid list nor the bottom list: in the event
`pre ++ hit :: suf` the top list is that of `pre`, then `hit`, then that of `suf`, while the
mid and bottom lists are those of `pre` followed by those of `suf`.  This holds whatever the
distance between the calibration heights is. -/
theorem classify_top (ytop ymid : ℚ) (pre suf : List CRTHit) (hit : CRTHit)
    (h : |hit.y - ytop| < 0.1) :
    (classify ytop ymid (pre ++ hit :: suf)).1 =
      (classify ytop ymid pre).1 ++ hit :: (classify ytop ymid suf).1 ∧
    (classify ytop ymid (pre ++ hit :: suf)).2.1 =
      (classify ytop ymid pre).2.1 ++ (classify ytop ymid suf).2.1 ∧
    (classify ytop ymid (pre ++ hit :: suf)).2.2 =
      (classify ytop ymid pre).2.2 ++ (classify ytop ymid suf).2.2 := by
  have ht : near_top ytop hit.y 0.1 = true := by
    unfold near_top
    exact decide_eq_true h
  simp only [classify_eq, List.filter_append, List.filter_cons, ht]
  simp

/-- Instance of C7 with `ytop = 300`, `ymid = 250`: the hit at height 300 of the sample event
is the only top hit. -/
theorem classify_top_witness :
    (classify 300 250 sampleChits).1 = [⟨10, 300, 0, 0⟩] ∧
    (classify 300 250 sampleChits).2.1 = (classify 300 250 [⟨10, 250, 0, 0⟩, ⟨20, -300, 5, 0⟩]).2.1 ∧
    (classify 300 250 sampleChits).2.2 = (classify 300 250 [⟨10, 250, 0, 0⟩, ⟨20, -300, 5, 0⟩]).2.2 := by
  have h := classify_top 300 250 [] [⟨10, 250, 0, 0⟩, ⟨20, -300, 5, 0⟩] ⟨10, 300, 0, 0⟩
    (by norm_num)
  have e : (classify 300 250 [⟨10, 250, 0, 0⟩, ⟨20, -300, 5, 0⟩]).1 = [] := by
    rw [classify_eq]
    norm_num [near_top, abs_lt]
  have e0 : classify 300 250 [] = ([], [], []) := rfl
  rw [e, e0] at h
  exact h

/-- Claim C8 (HitClassifier partitions the hits).  The top list holds the hits near `ytop`, the
mid list the hits not near `ytop` and near `ymid`, the bottom list all remaining hits
(whatever their distance to `ybot`), each in input order; the three lists together are a
permutation of the input, so every hit lands in exactly one of them. -/
theorem classify_partition (ytop ymid ybot : ℚ) (chits : List CRTHit) :
    (classify ytop ymid chits).1 = chits.filter (fun h => near_top ytop h.y 0.1) ∧
    (classify ytop ymid chits).2.1 =
      chits.filter (fun h => !near_top ytop h.y 0.1 && near_mid ymid h.y 0.1) ∧
    (classify ytop ymid chits).2.2 =
      chits.filter (fun h => !near_top ytop h.y 0.1 && !near_mid ymid h.y 0.1) ∧
    ((classify ytop ymid chits).1 ++ (classify ytop ymid chits).2.1 ++
      (classify ytop ymid chits).2.2).Perm chits ∧
    (classify ytop ymid chits).1.Sublist chits ∧
    (classify ytop ymid chits).2.1.Sublist chits ∧
    (classify ytop ymid chits).2.2.Sublist chits ∧
    (∀ h ∈ chits, near_top ytop h.y 0.1 = false → near_mid ymid h.y 0.1 = false →
      h ∈ (classify ytop ymid chits).2.2 ∧ h ∉ (classify ytop ymid chits).1 ∧
      h ∉ (classify ytop ymid chits).2.1 ∧
      (near_bot ybot h.y 0.1 = false → h ∈ (classify ytop ymid chits).2.2)) := by
  rw [classify_eq]
  refine ⟨rfl, rfl, rfl, ?_, List.filter_sublist _, List.filter_sublist _,
    List.filter_sublist _, ?_⟩
  · induction chits with
    | nil => simp
    | cons h l ih =>
      by_cases h1 : near_top ytop h.y 0.1 = true
      · simpa [List.filter_cons, h1] using ih
      · by_cases h2 : near_mid ymid h.y 0.1 = true
        · simp only [List.filter_cons, h1, h2, Bool.not_false, Bool.true_and, Bool.and_self,
            if_true, Bool.not_true, Bool.and_false, Bool.false_eq_true, if_false,
            List.append_assoc, List.cons_append]
          have := List.Perm.trans List.perm_middle (List.Perm.cons h (by simpa using ih))
          simpa using this
        · simp only [List.filter_cons, h1, h2, Bool.not_false, Bool.true_and, Bool.and_self,
            if_true, Bool.false_eq_true, if_false, Bool.and_false, List.append_assoc]
          have e : List.filter (fun h => near_top ytop h.y 0.1) l ++
              (List.filter (fun h => !near_top ytop h.y 0.1 && near_mid ymid h.y 0.1) l ++
                h :: List.filter
                  (fun h => !near_top ytop h.y 0.1 && !near_mid ymid h.y 0.1) l) =
              (List.filter (fun h => near_top ytop h.y 0.1) l ++
                List.filter (fun h => !near_top ytop h.y 0.1 && near_mid ymid h.y 0.1) l) ++
                h :: List.filter
                  (fun h => !near_top ytop h.y 0.1 && !near_mid ymid h.y 0.1) l := by
            simp
          rw [e]
          exact List.Perm.trans List.perm_middle (List.Perm.cons h (by simpa using ih))
  · intro h hm h1 h2
    simp [List.mem_filter, hm, h1, h2]

/-! ## Theorems: candidate tracks -/

theorem eraseLoop_erase (fi fuel j : Nat) (tracks : List CRTTrack) (incomp : CRTTrack)
    (hj : j ≥ fi) (hget : tracks[j]? = some incomp)
    (hf : findComplete tracks incomp (List.range fi) = some true) :
    eraseLoop fi (fuel + 1) j tracks =
      eraseLoop fi fuel ((j + 2 ^ 64 - 1) % 2 ^ 64) (tracks.eraseIdx j) := by
  rw [eraseLoop, if_pos hj]
  simp only [hget, hf]

theorem eraseLoop_keep (fi fuel j : Nat) (tracks : List CRTTrack) (incomp : CRTTrack)
    (hj : j ≥ fi) (hget : tracks[j]? = some incomp)
    (hf : findComplete tracks incomp (List.range fi) = some false) :
    eraseLoop fi (fuel + 1) j tracks =
      eraseLoop fi fuel ((j + 2 ^ 64 - 1) % 2 ^ 64) tracks := by
  rw [eraseLoop, if_pos hj]
  simp only [hget, hf]

theorem eraseLoop_done (fi fuel j : Nat) (tracks : List CRTTrack) (hj : ¬ j ≥ fi) :
    eraseLoop fi (fuel + 1) j tracks = some tracks := by
  rw [eraseLoop, if_neg hj]

/-- Claim C6 (CandidateTrackBuilder on a single triple).  For an event whose tagger hits
classify into exactly one top hit `t`, one mid hit `m` and one bottom hit `b`, such that the
top-mid trajectory projected to the height of `b` has the x sign of `b` and lies at 3D
distance below 600 from `b`, the final candidate list is exactly the one three-endpoint track
(top `t`, mid `m`, bottom `(proj.x, b.y, b.z)`): both fallback pairs (top, bottom) and
(mid, bottom) are removed by the redundancy removal. -/
theorem single_triple_one_track (ytop ymid : ℚ) (chits : List CRTHit) (t m b : CRTHit)
    (hc : classify ytop ymid chits = ([t], [m], [b]))
    (hside : ((CRTTrack.topMid t.x t.y t.z m.x m.y m.z).projectY b.y).x < 0 ↔ b.x < 0)
    (hdist : ((⟨b.x, b.y, b.z⟩ : TVector3).sub
      ((CRTTrack.topMid t.x t.y t.z m.x m.y m.z).projectY b.y)).Mag2 < 600 * 600) :
    makeTracks ytop ymid chits =
      some [CRTTrack.withBot (CRTTrack.topMid t.x t.y t.z m.x m.y m.z)
        ((CRTTrack.topMid t.x t.y t.z m.x m.y m.z).projectY b.y).x b.y b.z] ∧
    (CRTTrack.withBot (CRTTrack.topMid t.x t.y t.z m.x m.y m.z)
        ((CRTTrack.topMid t.x t.y t.z m.x m.y m.z).projectY b.y).x b.y b.z).top =
      some ⟨t.x, t.y, t.z⟩ ∧
    (CRTTrack.withBot (CRTTrack.topMid t.x t.y t.z m.x m.y m.z)
        ((CRTTrack.topMid t.x t.y t.z m.x m.y m.z).projectY b.y).x b.y b.z).mid =
      some ⟨m.x, m.y, m.z⟩ ∧
    (CRTTrack.withBot (CRTTrack.topMid t.x t.y t.z m.x m.y m.z)
        ((CRTTrack.topMid t.x t.y t.z m.x m.y m.z).projectY b.y).x b.y b.z).bot =
      some ⟨((CRTTrack.topMid t.x t.y t.z m.x m.y m.z).projectY b.y).x, b.y, b.z⟩ := by
  refine ⟨?_, rfl, rfl, rfl⟩
  have hcond : (decide (((CRTTrack.topMid t.x t.y t.z m.x m.y m.z).projectY b.y).x < 0) =
        decide (b.x < 0) ∧
      ((⟨b.x, b.y, b.z⟩ : TVector3).sub
        ((CRTTrack.topMid t.x t.y t.z m.x m.y m.z).projectY b.y)).MagLt 600 = true) := by
    refine ⟨?_, ?_⟩
    · rw [decide_eq_decide]
      exact hside
    · unfold TVector3.MagLt
      exact decide_eq_true hdist
  have hseed : bottomCompletion [b] (seedTracks [t] [m]) =
      some [CRTTrack.withBot (CRTTrack.topMid t.x t.y t.z m.x m.y m.z)
        ((CRTTrack.topMid t.x t.y t.z m.x m.y m.z).projectY b.y).x b.y b.z] := by
    simp only [bottomCompletion, seedTracks, List.flatMap_cons, List.flatMap_nil, List.map_cons,
      List.map_nil, List.append_nil, ne_eq, List.cons_ne_nil, not_false_eq_true, if_true,
      List.length_singleton, completionLoop, List.foldl_cons, List.foldl_nil]
    rw [completeStep, if_pos hcond]
    rfl
  unfold makeTracks
  rw [hc]
  simp only [buildTracks, hseed, List.length_singleton, fallbackPairs, List.foldl_cons,
    List.foldl_nil, List.map_cons, List.map_nil, List.singleton_append, List.cons_append,
    List.nil_append]
  simp only [removeRedundant, List.length_cons, List.length_nil, one_ne_zero, ne_eq,
    not_false_eq_true, if_true, Nat.zero_add, Nat.reduceAdd]
  have hmod2 : (3 + 2 ^ 64 - 1) % 2 ^ 64 = 2 := by norm_num
  have hmod1 : (2 + 2 ^ 64 - 1) % 2 ^ 64 = 1 := by norm_num
  have hmod0 : (1 + 2 ^ 64 - 1) % 2 ^ 64 = 0 := by norm_num
  have hr : List.range 1 = [0] := rfl
  rw [hmod2, show (4 : ℕ) = 3 + 1 from rfl,
    eraseLoop_erase 1 3 2 _ (CRTTrack.midBot m.x m.y m.z b.x b.y b.z) (by norm_num) rfl
      (by rw [hr]
          simp [findComplete, CRTTrack.botEq, CRTTrack.midEq, CRTTrack.withBot,
            CRTTrack.topMid, CRTTrack.midBot]),
    hmod1, show (3 : ℕ) = 2 + 1 from rfl,
    eraseLoop_erase 1 2 1 _ (CRTTrack.topBot t.x t.y t.z b.x b.y b.z) (by norm_num) rfl
      (by rw [hr]
          simp [findComplete, CRTTrack.botEq, CRTTrack.topEq, CRTTrack.withBot,
            CRTTrack.topMid, CRTTrack.topBot]),
    hmod0, eraseLoop_done 1 1 0 _ (by norm_num)]
  rfl

theorem sampleChits_classify :
    classify 300 250 sampleChits =
      ([⟨10, 300, 0, 0⟩], [⟨10, 250, 0, 0⟩], [⟨20, -300, 5, 0⟩]) := by
  rw [classify_eq]
  norm_num [sampleChits, near_top, near_mid, abs_lt, List.filter]

/-- Instance of C6: the sample event (top hit at height 300, mid hit at height 250, bottom
hit at height -300, projection `(10, -300, 0)` at distance below 600 of the bottom hit
`(20, -300, 5)`) yields the single three-endpoint candidate. -/
theorem single_triple_one_track_witness :
    makeTracks 300 250 sampleChits =
      some [⟨10, -300, 5, some ⟨10, 300, 0⟩, some ⟨10, 250, 0⟩, some ⟨10, -300, 5⟩⟩] := by
  have h := (single_triple_one_track 300 250 sampleChits ⟨10, 300, 0, 0⟩ ⟨10, 250, 0, 0⟩
    ⟨20, -300, 5, 0⟩ sampleChits_classify
    (by norm_num [CRTTrack.topMid, CRTTrack.projectY, CRTTrack.topmostPt])
    (by norm_num [CRTTrack.topMid, CRTTrack.projectY, CRTTrack.topmostPt, TVector3.sub,
      TVector3.Mag2])).1
  rw [h]
  norm_num [CRTTrack.withBot, CRTTrack.topMid, CRTTrack.projectY, CRTTrack.topmostPt]

/-! ## Theorems: track scoring -/

theorem countNear_eq (pt : TVector3) (l : List TVector3) (acc : ℚ × Int) :
    countNear pt l acc =
      (acc.1 + ((l.filter (fun q => isNear pt q)).length : ℚ), acc.2 + (l.length : Int)) := by
  unfold countNear
  induction l generalizing acc with
  | nil => simp
  | cons q l ih =>
    rw [List.foldl_cons, ih]
    by_cases hq : isNear pt q = true
    · simp only [hq, if_true, List.filter_cons, List.length_cons, Nat.cast_add, Nat.cast_one,
        Prod.mk.injEq]
      constructor <;> ring
    · simp only [hq, if_false, List.filter_cons, List.length_cons, Nat.cast_add, Nat.cast_one,
        Prod.mk.injEq, Bool.false_eq_true, true_and]
      ring

theorem scoreSample_eq (b0 b1 : AtY) (pt : TVector3) (acc : ℚ × Int) (h : ¬ pt.y > 200) :
    scoreSample b0 b1 pt acc =
      (acc.1 + (((retrieved b0 b1 pt).filter (fun q => isNear pt q)).length : ℚ),
       acc.2 + ((retrieved b0 b1 pt).length : Int)) := by
  unfold scoreSample retrieved
  rw [if_neg h]
  rcases hr : (if pt.x < 0 then b0 else b1) pt.y with ⟨l, _ | n⟩
  · simp only [countNear_eq]
  · simp only [countNear_eq, List.filter_append, List.length_append, Nat.cast_add,
      Prod.mk.injEq]
    constructor <;> ring

theorem scoreSample_skip (b0 b1 : AtY) (pt : TVector3) (acc : ℚ × Int) (h : pt.y > 200) :
    scoreSample b0 b1 pt acc = acc := by
  unfold scoreSample
  rw [if_pos h]

/-- The walk is the fold of the sample body over the visited points. -/
theorem scoreWalk_eq_foldl (b0 b1 : AtY) (sx sz : ℚ) (pt : TVector3) (acc : ℚ × Int) :
    scoreWalk b0 b1 sx sz pt acc =
      (walkPoints sx sz pt).foldl (fun a p => scoreSample b0 b1 p a) acc := by
  induction pt, acc using scoreWalk.induct b0 b1 sx sz with
  | case1 pt acc h ih =>
    rw [scoreWalk, if_pos h, walkPoints, if_pos h, List.foldl_cons, ih]
  | case2 pt acc h =>
    rw [scoreWalk, if_neg h, walkPoints, if_neg h, List.foldl_nil]

theorem foldl_scoreSample_eq (b0 b1 : AtY) (l : List TVector3) (acc : ℚ × Int) :
    l.foldl (fun a p => scoreSample b0 b1 p a) acc =
      (acc.1 + ((((l.filter (fun pt => ¬ pt.y > 200)).flatMap (fun pt =>
          (retrieved b0 b1 pt).map (fun q => (pt, q)))).filter
            (fun pq => isNear pq.1 pq.2)).length : ℚ),
       acc.2 + ((((l.filter (fun pt => ¬ pt.y > 200)).flatMap (fun pt =>
          (retrieved b0 b1 pt).map (fun q => (pt, q)))).length : ℕ) : Int)) := by
  induction l generalizing acc with
  | nil => simp
  | cons p l ih =>
    rw [List.foldl_cons, ih]
    by_cases hp : p.y > 200
    · rw [scoreSample_skip b0 b1 p acc hp]
      simp [List.filter_cons, hp]
    · rw [scoreSample_eq b0 b1 p acc hp]
      simp only [List.filter_cons, hp, not_false_eq_true, decide_True, if_true,
        List.flatMap_cons, List.filter_append, List.length_append, List.filter_map,
        List.length_map, Nat.cast_add, Prod.mk.injEq]
      constructor
      · have e : ((List.filter ((fun pq => isNear pq.1 pq.2) ∘ fun q => (p, q))
            (retrieved b0 b1 p)).length : ℚ) =
            ((List.filter (fun q => isNear p q) (retrieved b0 b1 p)).length : ℚ) := rfl
        rw [e]
        ring
      · ring

/-- The counters at the end of the walk: `tot` is the number of examined pairs
(sample, retrieved point), `score` the number of those pairs that are near. -/
theorem scoreWalk_counts (b0 b1 : AtY) (track : CRTTrack) :
    scoreWalk b0 b1 ((track.topmostPt.x - track.xb) / (track.topmostPt.y - track.yb))
        ((track.topmostPt.z - track.zb) / (track.topmostPt.y - track.yb))
        track.topmostPt (0, 0) =
      ((((examined b0 b1 track).filter (fun pq => isNear pq.1 pq.2)).length : ℚ),
       (((examined b0 b1 track).length : ℕ) : Int)) := by
  rw [scoreWalk_eq_foldl, foldl_scoreSample_eq]
  simp [examined, sampledPoints]

/-- The score as a quotient of the two counts. -/
theorem scoreTrack_eq (b0 b1 : AtY) (track : CRTTrack) :
    scoreTrack b0 b1 track =
      if (examined b0 b1 track).length = 0 then 0
      else (((examined b0 b1 track).filter (fun pq => isNear pq.1 pq.2)).length : ℚ) /
        ((examined b0 b1 track).length : ℚ) := by
  unfold scoreTrack
  rw [scoreWalk_counts]
  by_cases h : (examined b0 b1 track).length = 0
  · simp [h]
  · simp [h]

theorem walkPoints_pos (sx sz : ℚ) (pt : TVector3) (h : pt.y > -200) :
    walkPoints sx sz pt = pt :: walkPoints sx sz (pt.sub ⟨sx * 5, 5, sz * 5⟩) := by
  rw [walkPoints, if_pos h]

theorem walkPoints_neg (sx sz : ℚ) (pt : TVector3) (h : ¬ pt.y > -200) :
    walkPoints sx sz pt = [] := by
  rw [walkPoints, if_neg h]

theorem sampleLow_points : sampledPoints sampleLow = [⟨1, -197, 0⟩] := by
  simp only [sampledPoints, sampleLow, CRTTrack.midBot, CRTTrack.topmostPt]
  rw [walkPoints_pos _ _ _ (by norm_num), walkPoints_neg _ _ _ (by norm_num [TVector3.sub])]
  have h : ¬ ((-197 : ℚ) > 200) := by norm_num
  simp only [List.filter, h, not_false_eq_true, decide_True]

theorem at_y_of_binOf (ix : IntersectsByHeight) (y : ℚ) (i : Nat)
    (h : ix.binOf y = some i) :
    ix.at_y y =
      (ix.bin i,
       if y - ix.binLow i < (ix.binLow (i + 1) - ix.binLow i) / 2 then
         (if 0 < i then some (ix.bin (i - 1)) else none)
       else
         (if i + 1 < ix.nbins then some (ix.bin (i + 1)) else none)) := by
  unfold IntersectsByHeight.at_y
  rw [h]

theorem binLow_ten_zero (pts : List TVector3) :
    IntersectsByHeight.binLow ⟨10, pts⟩ 0 = -200 := by
  norm_num [IntersectsByHeight.binLow]

theorem binLow_ten_one (pts : List TVector3) :
    IntersectsByHeight.binLow ⟨10, pts⟩ (0 + 1) = -160 := by
  norm_num [IntersectsByHeight.binLow]

theorem binOf_sample (pts : List TVector3) :
    IntersectsByHeight.binOf ⟨10, pts⟩ (-197) = some 0 := by
  have hr : List.range 10 = 0 :: List.range' 1 9 := rfl
  unfold IntersectsByHeight.binOf
  rw [hr, List.find?_cons_of_pos]
  rw [binLow_ten_zero, binLow_ten_one]
  norm_num

theorem at_y_sample (pts : List TVector3) :
    IntersectsByHeight.at_y ⟨10, pts⟩ (-197) =
      (pts.filter (fun p => -200 ≤ p.y ∧ p.y < -160), none) := by
  have hlt : (-197 : ℚ) - IntersectsByHeight.binLow ⟨10, pts⟩ 0 <
      (IntersectsByHeight.binLow ⟨10, pts⟩ (0 + 1) -
        IntersectsByHeight.binLow ⟨10, pts⟩ 0) / 2 := by
    rw [binLow_ten_zero, binLow_ten_one]
    norm_num
  rw [at_y_of_binOf _ _ 0 (binOf_sample pts), if_pos hlt, if_neg (lt_irrefl 0)]
  simp only [IntersectsByHeight.bin, binLow_ten_zero, binLow_ten_one]

theorem retrieved_eq_of (b0 b1 : AtY) (pt : TVector3) (l : List TVector3)
    (h : ¬ pt.x < 0) (hb : b1 pt.y = (l, none)) : retrieved b0 b1 pt = l := by
  unfold retrieved
  rw [if_neg h, hb]

theorem sampleLow_retrieved (pts0 pts : List TVector3) :
    retrieved (IntersectsByHeight.at_y ⟨10, pts0⟩) (IntersectsByHeight.at_y ⟨10, pts⟩)
        ⟨1, -197, 0⟩ =
      pts.filter (fun p => -200 ≤ p.y ∧ p.y < -160) :=
  retrieved_eq_of _ _ _ _ (by norm_num) (at_y_sample pts)

theorem sampleLow_examined (pts0 pts : List TVector3) :
    examined (IntersectsByHeight.at_y ⟨10, pts0⟩) (IntersectsByHeight.at_y ⟨10, pts⟩)
        sampleLow =
      (pts.filter (fun p => -200 ≤ p.y ∧ p.y < -160)).map (fun q => (⟨1, -197, 0⟩, q)) := by
  unfold examined
  rw [sampleLow_points]
  simp only [List.flatMap_cons, List.flatMap_nil, List.append_nil, sampleLow_retrieved]

theorem mem_examined (b0 b1 : AtY) (track : CRTTrack) (pq : TVector3 × TVector3) :
    pq ∈ examined b0 b1 track ↔ pq.1 ∈ sampledPoints track ∧ pq.2 ∈ retrieved b0 b1 pq.1 := by
  unfold examined
  simp only [List.mem_flatMap, List.mem_map]
  constructor
  · rintro ⟨pt, hpt, q, hq, rfl⟩
    exact ⟨hpt, hq⟩
  · rintro ⟨h1, h2⟩
    exact ⟨pq.1, h1, pq.2, h2, rfl⟩

/-- Refutation of C9 as stated, at a concrete input: the only sample `(1, -197, 0)` of the
track `sampleLow` coincides with a reconstructed point of its detector half, a second
reconstructed point `(1, -197, 100)` lies at the same height (hence in the same bin), and
the score is `1 / 2`, not `1`. -/
theorem full_coincidence_counterexample :
    Coincides [] [⟨1, -197, 0⟩, ⟨1, -197, 100⟩] sampleLow ∧
    scoreTrack (IntersectsByHeight.at_y ⟨10, []⟩)
      (IntersectsByHeight.at_y ⟨10, [⟨1, -197, 0⟩, ⟨1, -197, 100⟩]⟩) sampleLow = 1 / 2 ∧
    scoreTrack (IntersectsByHeight.at_y ⟨10, []⟩)
      (IntersectsByHeight.at_y ⟨10, [⟨1, -197, 0⟩, ⟨1, -197, 100⟩]⟩) sampleLow ≠ 1 := by
  have hs : scoreTrack (IntersectsByHeight.at_y ⟨10, []⟩)
      (IntersectsByHeight.at_y ⟨10, [⟨1, -197, 0⟩, ⟨1, -197, 100⟩]⟩) sampleLow = 1 / 2 := by
    rw [scoreTrack_eq, sampleLow_examined]
    norm_num [List.filter, isNear, TVector3.SetX, TVector3.sub, TVector3.MagLt, TVector3.Mag2]
  refine ⟨?_, hs, ?_⟩
  · intro pt hpt
    rw [sampleLow_points, List.mem_singleton] at hpt
    subst hpt
    norm_num
  · rw [hs]
    norm_num

/-- Claim C9, amended (TrackScorer, full support).  For every candidate track and every pair of
height indexes such that at least one reconstructed point is retrieved along the walk and
every point retrieved for a sampled point lies at distance below 5 from it (after the
sample's x is replaced by the point's x), the score of the track is exactly 1. -/
theorem score_one_of_full_support (b0 b1 : AtY) (track : CRTTrack)
    (hsome : ∃ pt ∈ sampledPoints track, retrieved b0 b1 pt ≠ [])
    (hall : ∀ pt ∈ sampledPoints track, ∀ q ∈ retrieved b0 b1 pt, isNear pt q = true) :
    scoreTrack b0 b1 track = 1 := by
  have hne : (examined b0 b1 track).length ≠ 0 := by
    obtain ⟨pt, hpt, hr⟩ := hsome
    obtain ⟨q, hq⟩ := List.exists_mem_of_ne_nil _ hr
    have hm : (pt, q) ∈ examined b0 b1 track := (mem_examined b0 b1 track (pt, q)).2 ⟨hpt, hq⟩
    intro h0
    rw [List.length_eq_zero] at h0
    rw [h0] at hm
    exact List.not_mem_nil _ hm
  have hf : (examined b0 b1 track).filter (fun pq => isNear pq.1 pq.2) =
      examined b0 b1 track := by
    rw [List.filter_eq_self]
    intro pq hpq
    have := (mem_examined b0 b1 track pq).1 hpq
    exact hall pq.1 this.1 pq.2 this.2
  rw [scoreTrack_eq, if_neg hne, hf]
  have hq : ((examined b0 b1 track).length : ℚ) ≠ 0 := by exact_mod_cast hne
  exact div_self hq

/-- Instance of the amended C9: when the only reconstructed point is the sample itself the
score is 1. -/
theorem score_one_of_full_support_witness :
    scoreTrack (IntersectsByHeight.at_y ⟨10, []⟩)
      (IntersectsByHeight.at_y ⟨10, [⟨1, -197, 0⟩]⟩) sampleLow = 1 :=
  score_one_of_full_support _ _ sampleLow
    ⟨⟨1, -197, 0⟩, by rw [sampleLow_points]; exact List.mem_singleton_self _,
      by rw [sampleLow_retrieved]; norm_num [List.filter]⟩
    (by
      intro pt hpt q hq
      rw [sampleLow_points, List.mem_singleton] at hpt
      subst hpt
      rw [sampleLow_retrieved] at hq
      norm_num [List.filter] at hq
      subst hq
      norm_num [isNear, TVector3.SetX, TVector3.sub, TVector3.MagLt, TVector3.Mag2])

/-- Claim C10 (TrackScorer, no support).  For every candidate track and every pair of height
indexes such that no retrieved reconstructed point is at distance below 5 from the sampled
point it is retrieved for (after the sample's x is replaced by the point's x), the match
counter ends at 0 and the score of the track is exactly 0, whether points were examined
(`tot > 0`) or not (`tot = 0`). -/
theorem score_zero_of_no_support (b0 b1 : AtY) (track : CRTTrack)
    (hnone : ∀ pt ∈ sampledPoints track, ∀ q ∈ retrieved b0 b1 pt, isNear pt q = false) :
    scoreTrack b0 b1 track = 0 ∧
    (scoreWalk b0 b1 ((track.topmostPt.x - track.xb) / (track.topmostPt.y - track.yb))
        ((track.topmostPt.z - track.zb) / (track.topmostPt.y - track.yb))
        track.topmostPt (0, 0)).1 = 0 := by
  have hf : (examined b0 b1 track).filter (fun pq => isNear pq.1 pq.2) = [] := by
    rw [List.filter_eq_nil_iff]
    intro pq hpq
    have := (mem_examined b0 b1 track pq).1 hpq
    rw [hnone pq.1 this.1 pq.2 this.2]
    exact Bool.false_ne_true
  constructor
  · rw [scoreTrack_eq, hf]
    simp
  · rw [scoreWalk_counts, hf]
    simp

/-- Instance of C10: with the single reconstructed point `(1, -197, 100)`, examined and too
far, the score is 0 with `tot = 1`; with no reconstructed point at all, the score is 0 with
`tot = 0`. -/
theorem score_zero_of_no_support_witness :
    (scoreTrack (IntersectsByHeight.at_y ⟨10, []⟩)
        (IntersectsByHeight.at_y ⟨10, [⟨1, -197, 100⟩]⟩) sampleLow = 0 ∧
      (examined (IntersectsByHeight.at_y ⟨10, []⟩)
        (IntersectsByHeight.at_y ⟨10, [⟨1, -197, 100⟩]⟩) sampleLow).length = 1) ∧
    (scoreTrack (IntersectsByHeight.at_y ⟨10, []⟩)
        (IntersectsByHeight.at_y ⟨10, []⟩) sampleLow = 0 ∧
      (examined (IntersectsByHeight.at_y ⟨10, []⟩)
        (IntersectsByHeight.at_y ⟨10, []⟩) sampleLow).length = 0) :=
  ⟨⟨(score_zero_of_no_support _ _ sampleLow (by
      intro pt hpt q hq
      rw [sampleLow_points, List.mem_singleton] at hpt
      subst hpt
      rw [sampleLow_retrieved] at hq
      norm_num [List.filter] at hq
      subst hq
      norm_num [isNear, TVector3.SetX, TVector3.sub, TVector3.MagLt, TVector3.Mag2])).1,
    by rw [sampleLow_examined]; norm_num [List.filter]⟩,
   ⟨(score_zero_of_no_support _ _ sampleLow (by
      intro pt hpt q hq
      rw [sampleLow_points, List.mem_singleton] at hpt
      subst hpt
      rw [sampleLow_retrieved] at hq
      simp at hq)).1,
    by rw [sampleLow_examined]; simp⟩⟩

/-- Claim C11 (score range).  At the end of the walk the counter `tot` is the number of
examined pairs (sample, retrieved point) and `score` the number of those pairs that are near,
a sub-collection of them; the score of the track is `0` when `tot = 0` (no division takes
place) and `score / tot` otherwise; hence `0 ≤ score ≤ 1`. -/
theorem score_is_match_over_total (b0 b1 : AtY) (track : CRTTrack) :
    scoreWalk b0 b1 ((track.topmostPt.x - track.xb) / (track.topmostPt.y - track.yb))
        ((track.topmostPt.z - track.zb) / (track.topmostPt.y - track.yb))
        track.topmostPt (0, 0) =
      ((((examined b0 b1 track).filter (fun pq => isNear pq.1 pq.2)).length : ℚ),
       (((examined b0 b1 track).length : ℕ) : Int)) ∧
    ((examined b0 b1 track).filter (fun pq => isNear pq.1 pq.2)).length ≤
      (examined b0 b1 track).length ∧
    ((examined b0 b1 track).length = 0 → scoreTrack b0 b1 track = 0) ∧
    ((examined b0 b1 track).length ≠ 0 → scoreTrack b0 b1 track =
      (((examined b0 b1 track).filter (fun pq => isNear pq.1 pq.2)).length : ℚ) /
        ((examined b0 b1 track).length : ℚ)) ∧
    0 ≤ scoreTrack b0 b1 track ∧ scoreTrack b0 b1 track ≤ 1 := by
  have hle : ((examined b0 b1 track).filter (fun pq => isNear pq.1 pq.2)).length ≤
      (examined b0 b1 track).length := List.length_filter_le _ _
  refine ⟨scoreWalk_counts b0 b1 track, hle, ?_, ?_, ?_, ?_⟩
  · intro h
    rw [scoreTrack_eq, if_pos h]
  · intro h
    rw [scoreTrack_eq, if_neg h]
  · rw [scoreTrack_eq]
    split
    · exact le_refl 0
    · exact div_nonneg (Nat.cast_nonneg _) (Nat.cast_nonneg _)
  · rw [scoreTrack_eq]
    split
    · exact zero_le_one
    · rename_i h
      have hpos : (0 : ℚ) < ((examined b0 b1 track).length : ℚ) := by
        exact_mod_cast Nat.pos_of_ne_zero h
      rw [div_le_one hpos]
      exact_mod_cast hle

/-- What holds of the match list after any part of the pass: it is a sublist of the tracks
processed, each of its tracks has a score above the threshold and no sibling of greater
score, and no two of its non-equal tracks share an endpoint value. -/
theorem selectRun_invariant (tracks : List CRTTrack) (scores : CRTTrack → ℚ)
    (done : List CRTTrack) (hsub : ∀ t ∈ done, t ∈ tracks) :
    (selectRun tracks scores done).1.Sublist done ∧
    (∀ a ∈ (selectRun tracks scores done).1, scores a > 0.000001 ∧
      ∀ s, Sibling tracks a s → ¬ scores a < scores s) ∧
    (∀ a ∈ (selectRun tracks scores done).1, ∀ b ∈ (selectRun tracks scores done).1,
      a ≠ b → ¬ sharesEndpoint a b) := by
  induction done using List.reverseRecOn with
  | nil =>
    refine ⟨List.Sublist.refl _, ?_, ?_⟩
    · intro a ha
      exact absurd ha (List.not_mem_nil _)
    · intro a ha
      exact absurd ha (List.not_mem_nil _)
  | append_singleton l t ih =>
    have hl : ∀ x ∈ l, x ∈ tracks := fun x hx => hsub x (List.mem_append_left _ hx)
    have ht : t ∈ tracks := hsub t (List.mem_append_right _ (List.mem_singleton_self t))
    obtain ⟨ih1, ih2, ih3⟩ := ih hl
    rw [selectRun_snoc]
    unfold selectStep
    by_cases hb : isBest (buildMaps tracks) scores (selectRun tracks scores l).2 t = true
    · rw [if_pos hb]
      have hbest := (isBest_eq_true tracks scores _ t ht).1 hb
      have hmemT : ∀ a ∈ (selectRun tracks scores l).1, a ∈ tracks :=
        fun a ha => hl a (ih1.subset ha)
      have hclash : ∀ a ∈ (selectRun tracks scores l).1, a ≠ t → ¬ sharesEndpoint a t := by
        intro a ha hne hsh
        have h1 := hbest.2 a ⟨hmemT a ha, hne, sharesEndpoint_symm hsh⟩
        have h2 := (ih2 a ha).2 t ⟨ht, fun q => hne q.symm, hsh⟩
        have heq : scores t = scores a := le_antisymm (not_lt.1 h2) (not_lt.1 h1.1)
        apply h1.2
        refine ⟨heq, ?_⟩
        rw [selectRun_used, heq]
        exact List.mem_map_of_mem scores ha
      refine ⟨List.Sublist.append ih1 (List.Sublist.refl _), ?_, ?_⟩
      · intro a ha
        rcases List.mem_append.1 ha with ha1 | ha1
        · exact ih2 a ha1
        · have e : a = t := List.mem_singleton.1 ha1
          rw [e]
          exact ⟨hbest.1, fun s hs => (hbest.2 s hs).1⟩
      · intro a ha b hb' hne
        rcases List.mem_append.1 ha with ha1 | ha1
        · rcases List.mem_append.1 hb' with hb1 | hb1
          · exact ih3 a ha1 b hb1 hne
          · have e : b = t := List.mem_singleton.1 hb1
            rw [e] at hne ⊢
            exact hclash a ha1 hne
        · have e : a = t := List.mem_singleton.1 ha1
          rw [e] at hne ⊢
          rcases List.mem_append.1 hb' with hb1 | hb1
          · intro hsh
            exact hclash b hb1 (fun q => hne q.symm) (sharesEndpoint_symm hsh)
          · have e' : b = t := List.mem_singleton.1 hb1
            exact absurd e'.symm hne
    · rw [if_neg hb]
      exact ⟨ih1.trans (List.sublist_append_left _ _), ih2, ih3⟩

/-- Claim C18 (conflict-freedom of the match list).  For every candidate list and score
assignment, no two non-equal tracks of the match list share an endpoint value (top, mid, or
bottom with x replaced by 0); the match list is a sublist of the candidate list, in
generation order; and every track in it has a score above `0.000001`. -/
theorem matches_conflict_free (tracks : List CRTTrack) (scores : CRTTrack → ℚ) :
    (∀ a ∈ selectMatches tracks scores, ∀ b ∈ selectMatches tracks scores,
      a ≠ b → ¬ sharesEndpoint a b) ∧
    (selectMatches tracks scores).Sublist tracks ∧
    (∀ a ∈ selectMatches tracks scores, scores a > 0.000001) := by
  obtain ⟨h1, h2, h3⟩ := selectRun_invariant tracks scores tracks (fun _ h => h)
  exact ⟨h3, h1, fun a ha => (h2 a ha).1⟩

theorem selectMatches_triple (x y z : CRTTrack) (scores : CRTTrack → ℚ) :
    selectMatches [x, y, z] scores =
      (selectStep (buildMaps [x, y, z]) scores
        (selectStep (buildMaps [x, y, z]) scores
          (selectStep (buildMaps [x, y, z]) scores ([], []) x) y) z).1 := rfl

theorem sampleA_apart_sampleC : ¬ sharesEndpoint sampleA sampleC := by
  rintro ⟨v, h1, h2⟩
  rw [mem_endpoints] at h1 h2
  simp only [sampleA, sampleC, Option.some.injEq, Option.map_none', reduceCtorEq,
    or_false] at h1 h2
  rcases h1 with h1 | h1 <;> rcases h2 with h2 | h2 <;>
    · rw [← h1] at h2
      norm_num at h2

theorem sampleA_apart_sampleD : ¬ sharesEndpoint sampleA sampleD := by
  rintro ⟨v, h1, h2⟩
  rw [mem_endpoints] at h1 h2
  simp only [sampleA, sampleD, Option.some.injEq, Option.map_none', reduceCtorEq,
    or_false] at h1 h2
  rcases h1 with h1 | h1 <;> rcases h2 with h2 | h2 <;>
    · rw [← h1] at h2
      norm_num at h2

theorem sampleC_shares_sampleD : sharesEndpoint sampleC sampleD :=
  ⟨⟨7, 8, 9⟩, by simp [endpoints, sampleC], by simp [endpoints, sampleD]⟩

theorem sampleC_ne_sampleD : sampleC ≠ sampleD := by
  simp [sampleC, sampleD]

theorem sampleHalf_above (t : CRTTrack) : sampleHalf t > 0.000001 := by
  unfold sampleHalf
  norm_num

/-- Claim C17 (score-keyed blocking exists).  In the candidate list
`[sampleA, sampleC, sampleD]`, all of score 0.5, where only `sampleC` and `sampleD` share an
endpoint value, the match list is `[sampleA]`: `sampleC` and `sampleD` have a score above
`0.000001` and no sibling of strictly higher score, share no endpoint value with `sampleA`,
and are rejected only because `sampleA`, of the identical score, was accepted earlier (without
`sampleA` the match list is `[sampleC]`); the group of tied siblings ends with none of its
members accepted. -/
theorem score_keyed_blocking :
    selectMatches [sampleA, sampleC, sampleD] sampleHalf = [sampleA] ∧
    sampleHalf sampleC > 0.000001 ∧ sampleHalf sampleD > 0.000001 ∧
    (∀ s, Sibling [sampleA, sampleC, sampleD] sampleC s →
      ¬ sampleHalf sampleC < sampleHalf s) ∧
    (∀ s, Sibling [sampleA, sampleC, sampleD] sampleD s →
      ¬ sampleHalf sampleD < sampleHalf s) ∧
    ¬ sharesEndpoint sampleA sampleC ∧ ¬ sharesEndpoint sampleA sampleD ∧
    sharesEndpoint sampleC sampleD ∧
    selectMatches [sampleC, sampleD] sampleHalf = [sampleC] := by
  have hnl : ∀ a b : CRTTrack, ¬ sampleHalf a < sampleHalf b := fun a b => lt_irrefl _
  have b1 : isBest (buildMaps [sampleA, sampleC, sampleD]) sampleHalf [] sampleA = true := by
    rw [isBest_eq_true _ _ _ _ (by simp)]
    exact ⟨sampleHalf_above _, fun s _ => ⟨hnl _ _, fun q => absurd q.2 (List.not_mem_nil _)⟩⟩
  have b2 : ¬ isBest (buildMaps [sampleA, sampleC, sampleD]) sampleHalf
      [sampleHalf sampleA] sampleC = true := by
    rw [isBest_eq_true _ _ _ _ (by simp)]
    rintro ⟨_, h⟩
    exact (h sampleD ⟨by simp, fun q => sampleC_ne_sampleD q.symm, sampleC_shares_sampleD⟩).2
      ⟨rfl, List.mem_singleton.2 rfl⟩
  have b3 : ¬ isBest (buildMaps [sampleA, sampleC, sampleD]) sampleHalf
      [sampleHalf sampleA] sampleD = true := by
    rw [isBest_eq_true _ _ _ _ (by simp)]
    rintro ⟨_, h⟩
    exact (h sampleC ⟨by simp, sampleC_ne_sampleD,
      sharesEndpoint_symm sampleC_shares_sampleD⟩).2 ⟨rfl, List.mem_singleton.2 rfl⟩
  refine ⟨?_, sampleHalf_above _, sampleHalf_above _, fun s _ => hnl _ _, fun s _ => hnl _ _,
    sampleA_apart_sampleC, sampleA_apart_sampleD, sampleC_shares_sampleD, ?_⟩
  · rw [selectMatches_triple]
    unfold selectStep
    rw [if_pos b1]
    simp only []
    rw [if_neg b2, if_neg b3]
    rfl
  · have c1 : isBest (buildMaps [sampleC, sampleD]) sampleHalf [] sampleC = true := by
      rw [isBest_eq_true _ _ _ _ (by simp)]
      exact ⟨sampleHalf_above _,
        fun s _ => ⟨hnl _ _, fun q => absurd q.2 (List.not_mem_nil _)⟩⟩
    have c2 : ¬ isBest (buildMaps [sampleC, sampleD]) sampleHalf
        [sampleHalf sampleC] sampleD = true := by
      rw [isBest_eq_true _ _ _ _ (by simp)]
      rintro ⟨_, h⟩
      exact (h sampleC ⟨by simp, sampleC_ne_sampleD,
        sharesEndpoint_symm sampleC_shares_sampleD⟩).2 ⟨rfl, List.mem_singleton.2 rfl⟩
    rw [selectMatches_pair]
    unfold selectStep
    rw [if_pos c1]
    simp only []
    rw [if_neg c2]
    rfl

/-! ## Theorems: the scoring walk -/

theorem lt_walkLength_iff (pt : TVector3) (k : Nat) :
    k < walkLength pt ↔ pt.y - k * 5 > -200 := by
  unfold walkLength
  rw [Int.lt_toNat, Int.lt_ceil, lt_div_iff₀ (by norm_num : (0 : ℚ) < 5)]
  constructor
  · intro h
    have : ((k : ℤ) : ℚ) = (k : ℚ) := Int.cast_natCast k
    rw [this] at h
    linarith
  · intro h
    have : ((k : ℤ) : ℚ) = (k : ℚ) := Int.cast_natCast k
    rw [this]
    linarith

theorem walkLength_step (sx sz : ℚ) (pt : TVector3) (n : Nat) (h : walkLength pt = n + 1) :
    walkLength (pt.sub ⟨sx * 5, 5, sz * 5⟩) = n := by
  unfold walkLength at h ⊢
  have e : ((pt.sub ⟨sx * 5, 5, sz * 5⟩).y + 200) / 5 = (pt.y + 200) / 5 - 1 := by
    simp only [TVector3.sub]
    ring
  rw [e, Int.ceil_sub_one]
  omega

theorem walkPointAt_zero (sx sz : ℚ) (pt : TVector3) : walkPointAt sx sz pt 0 = pt := by
  cases pt
  simp [walkPointAt]

theorem walkPointAt_succ (sx sz : ℚ) (pt : TVector3) (k : Nat) :
    walkPointAt sx sz pt (k + 1) = walkPointAt sx sz (pt.sub ⟨sx * 5, 5, sz * 5⟩) k := by
  simp only [walkPointAt, TVector3.sub, TVector3.mk.injEq, Nat.cast_add, Nat.cast_one]
  refine ⟨?_, ?_, ?_⟩ <;> ring

/-- The visited points in closed form. -/
theorem walkPoints_eq_map (sx sz : ℚ) (pt : TVector3) :
    walkPoints sx sz pt = (List.range (walkLength pt)).map (walkPointAt sx sz pt) := by
  generalize hn : walkLength pt = n
  induction n generalizing pt with
  | zero =>
    have h : ¬ pt.y > -200 := by
      intro hc
      have := (lt_walkLength_iff pt 0).2 (by simpa using hc)
      omega
    rw [walkPoints_neg sx sz pt h]
    rfl
  | succ n ih =>
    have h : pt.y > -200 := by
      have := (lt_walkLength_iff pt 0).1 (by omega)
      simpa using this
    rw [walkPoints_pos sx sz pt h, ih _ (walkLength_step sx sz pt n hn),
      List.range_succ_eq_map, List.map_cons, List.map_map, walkPointAt_zero]
    congr 1
    apply List.map_congr_left
    intro k _
    exact (walkPointAt_succ sx sz pt k).symm

/-- Claim C19 (the scoring walk terminates).  The walk started at `pt` with slopes
`(slopeX, slopeZ)` is a total function: it is the fold of the sample body over the visited
points, which are exactly the points `pt - k * (slopeX * 5, 5, slopeZ * 5)` for
`k = 0, 1, ...` as long as `pt.y - 5 * k > -200` (none when `pt.y ≤ -200`); a visited point
with `y > 200` leaves the counters unchanged yet is followed by the next point; and every
visited point lies on the line through `pt` with the slopes `slopeX = dx/dy`, `slopeZ = dz/dy`
(for a track: `pt` the top-most point and the slopes taken to the base point). -/
theorem walk_terminates_on_line (b0 b1 : AtY) (slopeX slopeZ : ℚ) (pt : TVector3)
    (acc : ℚ × Int) (track : CRTTrack) :
    scoreWalk b0 b1 slopeX slopeZ pt acc =
      ((List.range (walkLength pt)).map (walkPointAt slopeX slopeZ pt)).foldl
        (fun a p => scoreSample b0 b1 p a) acc ∧
    walkPoints slopeX slopeZ pt =
      (List.range (walkLength pt)).map (walkPointAt slopeX slopeZ pt) ∧
    (∀ k : Nat, k < walkLength pt ↔ (walkPointAt slopeX slopeZ pt k).y > -200) ∧
    (∀ k : Nat, (walkPointAt slopeX slopeZ pt k).y = pt.y - 5 * k) ∧
    (pt.y ≤ -200 → walkPoints slopeX slopeZ pt = []) ∧
    (∀ (p : TVector3) (a : ℚ × Int), p.y > 200 → scoreSample b0 b1 p a = a) ∧
    (∀ k : Nat,
      (walkPointAt slopeX slopeZ pt k).x =
        pt.x + slopeX * ((walkPointAt slopeX slopeZ pt k).y - pt.y) ∧
      (walkPointAt slopeX slopeZ pt k).z =
        pt.z + slopeZ * ((walkPointAt slopeX slopeZ pt k).y - pt.y)) ∧
    sampledPoints track =
      ((List.range (walkLength track.topmostPt)).map
        (walkPointAt ((track.topmostPt.x - track.xb) / (track.topmostPt.y - track.yb))
          ((track.topmostPt.z - track.zb) / (track.topmostPt.y - track.yb))
          track.topmostPt)).filter (fun p => ¬ p.y > 200) := by
  refine ⟨?_, walkPoints_eq_map slopeX slopeZ pt, ?_, ?_, ?_, ?_, ?_, ?_⟩
  · rw [scoreWalk_eq_foldl, walkPoints_eq_map]
  · intro k
    exact lt_walkLength_iff pt k
  · intro k
    simp only [walkPointAt]
    ring
  · intro h
    exact walkPoints_neg slopeX slopeZ pt (not_lt.2 h)
  · intro p a h
    exact scoreSample_skip b0 b1 p a h
  · intro k
    simp only [walkPointAt]
    constructor <;> ring
  · unfold sampledPoints
    rw [walkPoints_eq_map]

/-! ## Theorems: the two formulations of track building -/

theorem foldl_completeStep (track : CRTTrack) (bot : List CRTHit) (tracks : List CRTTrack) :
    bot.foldl (completeStep track) tracks = tracks ++ completionsOf track bot := by
  induction bot generalizing tracks with
  | nil => simp [completionsOf]
  | cons b l ih =>
    rw [List.foldl_cons, ih]
    unfold completeStep completionsOf
    by_cases hq : decide ((track.projectY b.y).x < 0) = decide (b.x < 0) ∧
        ((⟨b.x, b.y, b.z⟩ : TVector3).sub (track.projectY b.y)).MagLt 600 = true
    · have hq' : qualifies track b = true := by
        unfold qualifies
        exact decide_eq_true hq
      rw [if_pos hq, List.filter_cons_of_pos hq', List.map_cons]
      simp
    · have hq' : ¬ qualifies track b = true := by
        unfold qualifies
        simpa using hq
      rw [if_neg hq, List.filter_cons_of_neg hq']

theorem completionLoop_eq (bot : List CRTHit) (l acc : List CRTTrack) :
    completionLoop bot l.length (l ++ acc) =
      some (acc ++ l.flatMap (fun seed => completionsOf seed bot)) := by
  induction l generalizing acc with
  | nil => simp [completionLoop]
  | cons a l ih =>
    rw [List.length_cons, List.cons_append, completionLoop, foldl_completeStep,
      List.append_assoc, ih, List.flatMap_cons, List.append_assoc]

/-- The in-place loop computes the two-list formulation, for every list of pending tracks. -/
theorem bottomCompletion_eq (bot : List CRTHit) (tracks : List CRTTrack) :
    bottomCompletion bot tracks = some (bottomCompletionTwoList bot tracks) := by
  unfold bottomCompletion bottomCompletionTwoList
  by_cases hb : bot ≠ []
  · rw [if_pos hb, if_pos hb]
    have h := completionLoop_eq bot tracks []
    rw [List.append_nil, List.nil_append] at h
    exact h
  · rw [if_neg hb, if_neg hb]

theorem mem_completionsOf {track t : CRTTrack} {bot : List CRTHit}
    (h : t ∈ completionsOf track bot) :
    ∃ bhit ∈ bot, qualifies track bhit = true ∧
      t = CRTTrack.withBot track (track.projectY bhit.y).x bhit.y bhit.z := by
  unfold completionsOf at h
  rw [List.mem_map] at h
  obtain ⟨b, hb, rfl⟩ := h
  rw [List.mem_filter] at hb
  exact ⟨b, hb.1, hb.2, rfl⟩

/-- Claim C15 (bottom completion equals the two-list formulation).  For every list of
top-mid seeds: when the bottom list is non-empty the in-place loop returns the concatenation,
over the seeds in order, of one three-endpoint track `(seed, proj.x, bhit.y, bhit.z)` for
each bottom hit in order with `signbit proj.x = signbit bhit.x` and `|bhit - proj| < 600`, so
that every track of the result carries a bottom endpoint and no two-endpoint seed survives;
when the bottom list is empty the seed list is returned unchanged. -/
theorem bottomCompletion_two_list (top mid bot : List CRTHit) :
    bottomCompletion bot (seedTracks top mid) =
      some (bottomCompletionTwoList bot (seedTracks top mid)) ∧
    (bot ≠ [] → bottomCompletionTwoList bot (seedTracks top mid) =
      (seedTracks top mid).flatMap (fun seed =>
        (bot.filter (qualifies seed)).map
          (fun bhit => CRTTrack.withBot seed (seed.projectY bhit.y).x bhit.y bhit.z))) ∧
    (bot ≠ [] → ∀ t ∈ bottomCompletionTwoList bot (seedTracks top mid),
      ∃ seed ∈ seedTracks top mid, ∃ bhit ∈ bot, qualifies seed bhit = true ∧
        t = CRTTrack.withBot seed (seed.projectY bhit.y).x bhit.y bhit.z ∧
        t.bot = some ⟨(seed.projectY bhit.y).x, bhit.y, bhit.z⟩) ∧
    bottomCompletionTwoList [] (seedTracks top mid) = seedTracks top mid ∧
    (∀ (seed : CRTTrack) (bhit : CRTHit), qualifies seed bhit = true ↔
      (((seed.projectY bhit.y).x < 0 ↔ bhit.x < 0) ∧
        ((⟨bhit.x, bhit.y, bhit.z⟩ : TVector3).sub (seed.projectY bhit.y)).Mag2 <
          600 * 600)) := by
  refine ⟨bottomCompletion_eq bot _, ?_, ?_, ?_, ?_⟩
  · intro hb
    unfold bottomCompletionTwoList
    rw [if_pos hb]
    rfl
  · intro hb t ht
    unfold bottomCompletionTwoList at ht
    rw [if_pos hb, List.mem_flatMap] at ht
    obtain ⟨seed, hs, hm⟩ := ht
    obtain ⟨b, hb1, hb2, hb3⟩ := mem_completionsOf hm
    exact ⟨seed, hs, b, hb1, hb2, hb3, by rw [hb3]; rfl⟩
  · unfold bottomCompletionTwoList
    rw [if_neg (not_not.2 rfl)]
  · intro seed bhit
    unfold qualifies TVector3.MagLt
    rw [decide_eq_true_iff, decide_eq_decide, decide_eq_true_iff]

theorem fallbackPairs_eq (top mid bot : List CRTHit) (tracks : List CRTTrack) :
    fallbackPairs top mid bot tracks = tracks ++ fallbackList top mid bot := by
  unfold fallbackPairs fallbackList
  induction bot generalizing tracks with
  | nil => simp
  | cons b l ih =>
    rw [List.foldl_cons, ih, List.flatMap_cons]
    simp only [List.append_assoc]

theorem findComplete_range' (done pre rest : List CRTTrack) (incomp : CRTTrack) :
    findComplete (done ++ pre ++ rest) incomp (List.range' done.length pre.length) =
      some (subsumedBy pre incomp) := by
  induction pre generalizing done with
  | nil => simp [findComplete, subsumedBy]
  | cons a l ih =>
    have hget : (done ++ a :: l ++ rest)[done.length]? = some a := by
      rw [List.append_assoc, List.getElem?_append_right (le_refl _), Nat.sub_self]
      simp
    rw [List.length_cons, List.range'_succ, findComplete, hget]
    simp only []
    by_cases hc : (incomp.botEq a && (incomp.topEq a || incomp.midEq a)) = true
    · rw [if_pos hc]
      simp only [subsumedBy, List.any_cons, hc, Bool.true_or]
    · rw [if_neg hc]
      have e : done ++ a :: l ++ rest = (done ++ [a]) ++ l ++ rest := by simp
      have e2 : done.length + 1 = (done ++ [a]).length := by simp
      rw [e, e2, ih (done ++ [a])]
      simp only [subsumedBy, List.any_cons, Bool.not_eq_true] at hc ⊢
      rw [hc, Bool.false_or]

/-- The loop over `k` decides whether one of the first `firstIncomplete` tracks subsumes
`incomp`, without leaving the list. -/
theorem findComplete_range (pre rest : List CRTTrack) (incomp : CRTTrack) :
    findComplete (pre ++ rest) incomp (List.range pre.length) =
      some (subsumedBy pre incomp) := by
  have h := findComplete_range' [] pre rest incomp
  rw [List.nil_append, List.length_nil] at h
  rw [List.range_eq_range']
  exact h

/-- The backward erase loop: started at the last index of `pre ++ A ++ B`, where the tail
`B` has been dealt with, it filters `A` and leaves `pre` and `B` alone. -/
theorem eraseLoop_spec (pre : List CRTTrack) (hpos : 0 < pre.length) (A : List CRTTrack) :
    ∀ (B : List CRTTrack) (fuel : Nat), A.length + 1 ≤ fuel →
      (pre ++ A ++ B).length < 2 ^ 64 →
      eraseLoop pre.length fuel (pre.length + A.length - 1) (pre ++ A ++ B) =
        some (pre ++ A.filter (fun incomp => !subsumedBy pre incomp) ++ B) := by
  induction A using List.reverseRecOn with
  | nil =>
    intro B fuel hf _
    obtain ⟨f, rfl⟩ : ∃ f, fuel = f + 1 := ⟨fuel - 1, by simp at hf; omega⟩
    rw [eraseLoop_done _ _ _ _ (by simp; omega)]
    simp
  | append_singleton A' x ih =>
    intro B fuel hf hlen
    obtain ⟨f, rfl⟩ : ∃ f, fuel = f + 1 := ⟨fuel - 1, by simp at hf; omega⟩
    have hj : pre.length + (A' ++ [x]).length - 1 = (pre ++ A').length := by
      simp
    have htr : pre ++ (A' ++ [x]) ++ B = (pre ++ A') ++ x :: B := by simp
    have hget : ((pre ++ A') ++ x :: B)[(pre ++ A').length]? = some x := by
      rw [List.getElem?_append_right (le_refl _), Nat.sub_self]
      simp
    have hfind : findComplete ((pre ++ A') ++ x :: B) x (List.range pre.length) =
        some (subsumedBy pre x) := by
      rw [List.append_assoc]
      exact findComplete_range pre (A' ++ x :: B) x
    have hlen' : (pre ++ A').length + 1 + B.length < 2 ^ 64 := by
      rw [htr] at hlen
      simp only [List.length_append, List.length_cons] at hlen ⊢
      omega
    have hdec : ((pre ++ A').length + 2 ^ 64 - 1) % 2 ^ 64 = pre.length + A'.length - 1 := by
      simp only [List.length_append] at hlen' ⊢
      omega
    have hge : (pre ++ A').length ≥ pre.length := by simp
    have hf' : A'.length + 1 ≤ f := by
      simp only [List.length_append, List.length_singleton] at hf
      omega
    rw [hj, htr]
    by_cases hs : subsumedBy pre x = true
    · rw [eraseLoop_erase _ _ _ _ x hge hget (by rw [hfind, hs]), hdec,
        List.eraseIdx_append_of_length_le (le_refl _), Nat.sub_self]
      have hB : (pre ++ A') ++ (x :: B).eraseIdx 0 = pre ++ A' ++ B := rfl
      rw [hB, ih B f hf' (by simp only [List.length_append] at hlen' ⊢; omega)]
      simp [List.filter_append, hs]
    · have hs' : subsumedBy pre x = false := by simpa using hs
      rw [eraseLoop_keep _ _ _ _ x hge hget (by rw [hfind, hs']), hdec]
      have hB : (pre ++ A') ++ x :: B = pre ++ A' ++ (x :: B) := rfl
      rw [hB, ih (x :: B) f hf' (by
        simp only [List.length_append, List.length_cons] at hlen' ⊢; omega)]
      simp [List.filter_append, hs']

/-- The backward erase loop computes the filter formulation, terminates within its fuel and
never leaves the list. -/
theorem removeRedundant_eq (firstIncomplete : Nat) (tracks : List CRTTrack)
    (hfi : firstIncomplete ≤ tracks.length) (hlen : tracks.length < 2 ^ 64) :
    removeRedundant firstIncomplete tracks =
      some (removeRedundantFilter firstIncomplete tracks) := by
  unfold removeRedundant removeRedundantFilter
  by_cases h0 : firstIncomplete ≠ 0
  · rw [if_pos h0]
    have hpre : (tracks.take firstIncomplete).length = firstIncomplete :=
      List.length_take_of_le hfi
    have hsplit : tracks.take firstIncomplete ++ tracks.drop firstIncomplete ++ [] = tracks := by
      rw [List.append_nil, List.take_append_drop]
    have hdrop : (tracks.drop firstIncomplete).length = tracks.length - firstIncomplete :=
      List.length_drop _ _
    have h := eraseLoop_spec (tracks.take firstIncomplete) (by rw [hpre]; omega)
      (tracks.drop firstIncomplete) [] (tracks.length + 1) (by rw [hdrop]; omega)
      (by rw [hsplit]; exact hlen)
    rw [hsplit, hpre, hdrop, List.append_nil] at h
    have hidx : (tracks.length + 2 ^ 64 - 1) % 2 ^ 64 =
        firstIncomplete + (tracks.length - firstIncomplete) - 1 := by omega
    rw [hidx]
    exact h
  · rw [if_neg h0]
    have hz : firstIncomplete = 0 := by omega
    subst hz
    simp [subsumedBy]

theorem length_seedTracks (top mid : List CRTHit) :
    (seedTracks top mid).length = top.length * mid.length := by
  unfold seedTracks
  induction top with
  | nil => simp
  | cons a l ih =>
    rw [List.flatMap_cons, List.length_append, ih, List.length_map, List.length_cons]
    ring

theorem length_flatMap_le {α β : Type} (l : List α) (f : α → List β) (c : Nat)
    (h : ∀ a ∈ l, (f a).length ≤ c) : (l.flatMap f).length ≤ l.length * c := by
  induction l with
  | nil => simp
  | cons a l ih =>
    rw [List.flatMap_cons, List.length_append, List.length_cons]
    have h1 := h a (List.mem_cons_self _ _)
    have h2 := ih (fun x hx => h x (List.mem_cons_of_mem _ hx))
    calc (f a).length + (l.flatMap f).length ≤ c + l.length * c := Nat.add_le_add h1 h2
      _ = (l.length + 1) * c := by ring

theorem length_completionsOf_le (track : CRTTrack) (bot : List CRTHit) :
    (completionsOf track bot).length ≤ bot.length := by
  unfold completionsOf
  rw [List.length_map]
  exact List.length_filter_le _ _

theorem length_bottomCompletionTwoList_le (bot : List CRTHit) (seeds : List CRTTrack) :
    (bottomCompletionTwoList bot seeds).length ≤ seeds.length * (bot.length + 1) := by
  unfold bottomCompletionTwoList
  split
  · exact length_flatMap_le seeds _ _
      (fun s _ => le_trans (length_completionsOf_le s bot) (Nat.le_succ _))
  · exact Nat.le_mul_of_pos_right _ (Nat.succ_pos _)

theorem length_fallbackList (top mid bot : List CRTHit) :
    (fallbackList top mid bot).length = bot.length * (top.length + mid.length) := by
  unfold fallbackList
  induction bot with
  | nil => simp
  | cons a l ih =>
    rw [List.flatMap_cons, List.length_append, ih, List.length_append, List.length_map,
      List.length_map, List.length_cons]
    ring

/-- The size of the candidate vector before redundancy removal. -/
theorem length_candidates_le (top mid bot : List CRTHit) :
    (bottomCompletionTwoList bot (seedTracks top mid) ++ fallbackList top mid bot).length ≤
      top.length * mid.length * (bot.length + 1) + bot.length * (top.length + mid.length) := by
  rw [List.length_append, length_fallbackList]
  have h := length_bottomCompletionTwoList_le bot (seedTracks top mid)
  rw [length_seedTracks] at h
  exact Nat.add_le_add_right h _

/-- The candidate list of lines 145-201, in terms of the two formulations. -/
theorem buildTracks_eq (top mid bot : List CRTHit)
    (hlen : (bottomCompletionTwoList bot (seedTracks top mid) ++
      fallbackList top mid bot).length < 2 ^ 64) :
    buildTracks top mid bot =
      some (bottomCompletionTwoList bot (seedTracks top mid) ++
        (fallbackList top mid bot).filter (fun incomp =>
          !subsumedBy (bottomCompletionTwoList bot (seedTracks top mid)) incomp)) := by
  unfold buildTracks
  rw [bottomCompletion_eq]
  simp only []
  rw [fallbackPairs_eq, removeRedundant_eq _ _ (by simp) hlen]
  unfold removeRedundantFilter
  rw [List.take_left, List.drop_left]

/-- Claim C14 (redundancy removal equals a filter).  For every event whose candidate vector
fits the index type, the final candidate list is the completed (or seed) tracks unchanged
and in order, followed by exactly those fallback pair-tracks (per bottom hit: all
(top, bottom) pairs, then all (mid, bottom) pairs) that no completed track `k` subsumes
through `botEq k` and (`topEq k` or `midEq k`), in generation order.  The backward erase loop
over `unsigned long` indices computes this filter for every list and every
`firstIncomplete` within it: it terminates and never indexes outside the list, also when
there are no fallback tracks and when `firstIncomplete` is 0. -/
theorem redundancy_removal_is_filter (top mid bot : List CRTHit)
    (hlen : (bottomCompletionTwoList bot (seedTracks top mid) ++
      fallbackList top mid bot).length < 2 ^ 64) :
    buildTracks top mid bot =
      some (bottomCompletionTwoList bot (seedTracks top mid) ++
        (fallbackList top mid bot).filter (fun incomp =>
          !subsumedBy (bottomCompletionTwoList bot (seedTracks top mid)) incomp)) ∧
    (∀ (firstIncomplete : Nat) (tracks : List CRTTrack),
      firstIncomplete ≤ tracks.length → tracks.length < 2 ^ 64 →
      removeRedundant firstIncomplete tracks =
        some (tracks.take firstIncomplete ++
          (tracks.drop firstIncomplete).filter
            (fun incomp => !subsumedBy (tracks.take firstIncomplete) incomp))) ∧
    (∀ tracks : List CRTTrack, removeRedundant 0 tracks = some tracks) ∧
    (∀ tracks : List CRTTrack, tracks.length < 2 ^ 64 →
      removeRedundant tracks.length tracks = some tracks) ∧
    (∀ (completed : List CRTTrack) (incomp : CRTTrack),
      subsumedBy completed incomp = true ↔
        ∃ comp ∈ completed, incomp.botEq comp = true ∧
          (incomp.topEq comp = true ∨ incomp.midEq comp = true)) := by
  refine ⟨buildTracks_eq top mid bot hlen, ?_, ?_, ?_, ?_⟩
  · intro fi tracks h1 h2
    exact removeRedundant_eq fi tracks h1 h2
  · intro tracks
    unfold removeRedundant
    rw [if_neg (not_not.2 rfl)]
  · intro tracks h
    rw [removeRedundant_eq _ _ (le_refl _) h]
    unfold removeRedundantFilter
    rw [List.take_length, List.drop_length]
    simp
  · intro completed incomp
    unfold subsumedBy
    rw [List.any_eq_true]
    simp only [Bool.and_eq_true, Bool.or_eq_true]

/-- Instance of C14 on the sample event (one top, one mid, one bottom hit): the candidate
vector has at most 4 entries, and the final list is the completed tracks followed by the
fallback pairs that none of them subsumes. -/
theorem redundancy_removal_is_filter_witness :
    buildTracks [⟨10, 300, 0, 0⟩] [⟨10, 250, 0, 0⟩] [⟨20, -300, 5, 0⟩] =
      some (bottomCompletionTwoList [⟨20, -300, 5, 0⟩]
          (seedTracks [⟨10, 300, 0, 0⟩] [⟨10, 250, 0, 0⟩]) ++
        (fallbackList [⟨10, 300, 0, 0⟩] [⟨10, 250, 0, 0⟩] [⟨20, -300, 5, 0⟩]).filter
          (fun incomp => !subsumedBy (bottomCompletionTwoList [⟨20, -300, 5, 0⟩]
            (seedTracks [⟨10, 300, 0, 0⟩] [⟨10, 250, 0, 0⟩])) incomp)) :=
  (redundancy_removal_is_filter [⟨10, 300, 0, 0⟩] [⟨10, 250, 0, 0⟩] [⟨20, -300, 5, 0⟩]
    (lt_of_le_of_lt (length_candidates_le _ _ _) (by norm_num))).1

/-! ## Theorems: intersection geometry -/

theorem stereoSlopeOf_eq {K : Type} [LinearOrderedField K] (m z1 z2 y1 y2 : K) :
    stereoSlopeOf m z1 z2 y1 y2 =
      if (if z1 < z2 then y2 > y1 else y1 > y2) then -m else m := by
  unfold stereoSlopeOf
  by_cases hz : z1 < z2
  · simp only [hz, if_true, mul_neg, mul_one]
  · simp only [hz, if_false, mul_neg, mul_one]

theorem stereoSlopeOf_ne_zero {K : Type} [LinearOrderedField K] (m z1 z2 y1 y2 : K)
    (hm : m ≠ 0) : stereoSlopeOf m z1 z2 y1 y2 ≠ 0 := by
  rw [stereoSlopeOf_eq]
  split_ifs
  all_goals first | exact neg_ne_zero.2 hm | exact hm

/-- The two lines of slopes `m1` and `-m1` through the first endpoints of wire 1 and wire 0
cross in exactly one point, the solved `(z, y)`. -/
theorem solved_is_crossing {K : Type} [Field K] (m1 p1z1 p1y1 p0z1 p0y1 : K)
    (hm : 2 * m1 ≠ 0) :
    solvedYOf m1 (solvedZOf m1 p1z1 p1y1 p0z1 p0y1) p1z1 p1y1 - p1y1 =
      m1 * (solvedZOf m1 p1z1 p1y1 p0z1 p0y1 - p1z1) ∧
    solvedYOf m1 (solvedZOf m1 p1z1 p1y1 p0z1 p0y1) p1z1 p1y1 - p0y1 =
      -m1 * (solvedZOf m1 p1z1 p1y1 p0z1 p0y1 - p0z1) ∧
    ∀ z y : K, y - p1y1 = m1 * (z - p1z1) → y - p0y1 = -m1 * (z - p0z1) →
      z = solvedZOf m1 p1z1 p1y1 p0z1 p0y1 ∧
      y = solvedYOf m1 (solvedZOf m1 p1z1 p1y1 p0z1 p0y1) p1z1 p1y1 := by
  have hz : (2 * m1) * solvedZOf m1 p1z1 p1y1 p0z1 p0y1 =
      m1 * (p1z1 + p0z1) + p0y1 - p1y1 := by
    unfold solvedZOf
    rw [mul_div_cancel₀ _ hm]
  refine ⟨?_, ?_, ?_⟩
  · unfold solvedYOf
    ring
  · unfold solvedYOf
    linear_combination hz
  · intro z y h1 h0
    have hz' : (2 * m1) * z = m1 * (p1z1 + p0z1) + p0y1 - p1y1 := by
      linear_combination h0 - h1
    have ez : z = solvedZOf m1 p1z1 p1y1 p0z1 p0y1 :=
      mul_left_cancel₀ hm (hz'.trans hz.symm)
    refine ⟨ez, ?_⟩
    unfold solvedYOf
    rw [← ez]
    linear_combination h1

/-- Claim C16 (intersection geometry, over the reals).  With `m1` the slope chosen by lines
495-502 from `1 / sqrt 3` (`-1 / sqrt 3` if the y of the plane-0 wire at its larger-z
endpoint exceeds its y at its smaller-z endpoint, `+1 / sqrt 3` otherwise; for equal z the
first endpoint counts as the larger), `z` the solved z of line 505 and `y` the solved y of
line 507: the divisor `2 * m1` is not zero, and `(z, y)` is the unique common point of the
line through `(plane1.z1, plane1.y1)` with slope `m1` and the line through
`(plane0.z1, plane0.y1)` with slope `-m1`.  The point `intersection` emits for wires with
plane ids `(2, 1, 0)` carries this solved `y`. -/
theorem intersection_geometry (p1z1 p1y1 p0z1 p0y1 p0z2 p0y2 m1 z y : ℝ)
    (hm1 : m1 = stereoSlopeOf (1 / Real.sqrt 3) p0z1 p0z2 p0y1 p0y2)
    (hz : z = solvedZOf m1 p1z1 p1y1 p0z1 p0y1)
    (hy : y = solvedYOf m1 z p1z1 p1y1) :
    m1 = (if (if p0z1 < p0z2 then p0y2 > p0y1 else p0y1 > p0y2) then -(1 / Real.sqrt 3)
      else 1 / Real.sqrt 3) ∧
    2 * m1 ≠ 0 ∧
    y - p1y1 = m1 * (z - p1z1) ∧
    y - p0y1 = -m1 * (z - p0z1) ∧
    (∀ z' y' : ℝ, y' - p1y1 = m1 * (z' - p1z1) → y' - p0y1 = -m1 * (z' - p0z1) →
      z' = z ∧ y' = y) ∧
    (∀ (invSqrt3 : ℚ) (plane2 plane1 plane0 : Wire),
      plane2.plane = 2 → plane1.plane = 1 → plane0.plane = 0 →
      intersection invSqrt3 plane2 plane1 plane0 =
        some ⟨plane0.x1,
          solvedYOf (stereoSlopeOf invSqrt3 plane0.z1 plane0.z2 plane0.y1 plane0.y2)
            (solvedZOf (stereoSlopeOf invSqrt3 plane0.z1 plane0.z2 plane0.y1 plane0.y2)
              plane1.z1 plane1.y1 plane0.z1 plane0.y1) plane1.z1 plane1.y1,
          plane2.z1⟩) := by
  have hs : (1 / Real.sqrt 3 : ℝ) ≠ 0 :=
    one_div_ne_zero (ne_of_gt (Real.sqrt_pos.2 (by norm_num)))
  have hm : 2 * m1 ≠ 0 := by
    rw [hm1]
    exact mul_ne_zero two_ne_zero (stereoSlopeOf_ne_zero _ _ _ _ _ hs)
  obtain ⟨c1, c2, c3⟩ := solved_is_crossing m1 p1z1 p1y1 p0z1 p0y1 hm
  rw [← hz, ← hy] at c1 c2 c3
  refine ⟨by rw [hm1, stereoSlopeOf_eq], hm, c1, c2, c3, ?_⟩
  intro invSqrt3 plane2 plane1 plane0 h2 h1 h0
  unfold intersection
  rw [if_neg (by simp [h2, h1, h0])]
  rfl

/-- Instance of C16 for the plane-1 wire through `(z, y) = (20, 0)` and the plane-0 wire from
`(0, 0)` to `(10, 10)`: the slope is `-1 / sqrt 3`, the divisor is not zero. -/
theorem intersection_geometry_witness :
    stereoSlopeOf (1 / Real.sqrt 3) 0 10 0 10 = -(1 / Real.sqrt 3) ∧
    2 * stereoSlopeOf (1 / Real.sqrt 3) 0 10 0 10 ≠ 0 := by
  have h := intersection_geometry 20 0 0 0 10 10
    (stereoSlopeOf (1 / Real.sqrt 3) 0 10 0 10)
    (solvedZOf (stereoSlopeOf (1 / Real.sqrt 3) 0 10 0 10) 20 0 0 0)
    (solvedYOf (stereoSlopeOf (1 / Real.sqrt 3) 0 10 0 10)
      (solvedZOf (stereoSlopeOf (1 / Real.sqrt 3) 0 10 0 10) 20 0 0 0) 20 0)
    rfl rfl rfl
  refine ⟨?_, h.2.1⟩
  rw [h.1]
  norm_num

/-! ## Theorems: one event, end to end -/

theorem splitTpc_foldl (l a b : List WireHit) :
    l.foldl
      (fun acc whit =>
        if whit.tpc = 0 then (acc.1 ++ [whit], acc.2) else (acc.1, acc.2 ++ [whit]))
      (a, b) =
    (a ++ l.filter (fun h => h.tpc = 0), b ++ l.filter (fun h => ¬ h.tpc = 0)) := by
  induction l generalizing a b with
  | nil => simp
  | cons h l ih =>
    rw [List.foldl_cons]
    by_cases h0 : h.tpc = 0
    · simp [h0, ih]
    · simp [h0, ih]

theorem splitTpc_eq (l : List WireHit) :
    splitTpc l = (l.filter (fun h => h.tpc = 0), l.filter (fun h => ¬ h.tpc = 0)) := by
  unfold splitTpc
  rw [splitTpc_foldl]
  simp

theorem mem_of_mem_half {whits : List WireHit} {h : WireHit}
    (hm : h ∈ (splitTpc (sortWhits whits)).1 ∨ h ∈ (splitTpc (sortWhits whits)).2) :
    h ∈ whits := by
  rw [splitTpc_eq] at hm
  have hs : h ∈ sortWhits whits := by
    rcases hm with hm | hm
    · exact List.mem_of_mem_filter hm
    · exact List.mem_of_mem_filter hm
  exact (List.mergeSort_perm _ _).mem_iff.1 hs

theorem loopPlane0_none (m : ℚ) (wires : List Wire) (p2 p1 : WireHit) (l : List WireHit)
    (h : ∀ p0 ∈ l, ¬ inWindow (p1.peakTick - p0.peakTick)) (acc : List TVector3) :
    loopPlane0 m wires p2 p1 l acc = some acc := by
  induction l with
  | nil => rfl
  | cons p0 l ih =>
    rw [loopPlane0, if_pos ((not_inWindow_iff _).1 (h p0 (List.mem_cons_self _ _)))]
    exact ih (fun q hq => h q (List.mem_cons_of_mem _ hq))

theorem loopPlane1_none (m : ℚ) (wires : List Wire) (plane0 : List WireHit) (p2 : WireHit)
    (l : List WireHit)
    (h : ∀ p1 ∈ l, inWindow (p2.peakTick - p1.peakTick) →
      ∀ p0 ∈ plane0, ¬ inWindow (p1.peakTick - p0.peakTick)) (acc : List TVector3) :
    loopPlane1 m wires plane0 p2 l acc = some acc := by
  induction l with
  | nil => rfl
  | cons p1 l ih =>
    have ih' := ih (fun q hq => h q (List.mem_cons_of_mem _ hq))
    rw [loopPlane1]
    by_cases hd : p2.peakTick - p1.peakTick < 3 ∨ p2.peakTick - p1.peakTick > 4
    · rw [if_pos hd]
      exact ih'
    · rw [if_neg hd]
      have hw : inWindow (p2.peakTick - p1.peakTick) := by
        by_contra hc
        exact hd ((not_inWindow_iff _).1 hc)
      rw [loopPlane0_none m wires p2 p1 plane0 (h p1 (List.mem_cons_self _ _) hw)]
      exact ih'

theorem loopPlane2_none (m : ℚ) (wires : List Wire) (plane1 plane0 : List WireHit)
    (l : List WireHit)
    (h : ∀ p2 ∈ l, ∀ p1 ∈ plane1, inWindow (p2.peakTick - p1.peakTick) →
      ∀ p0 ∈ plane0, ¬ inWindow (p1.peakTick - p0.peakTick)) (acc : List TVector3) :
    loopPlane2 m wires plane1 plane0 l acc = some acc := by
  induction l with
  | nil => rfl
  | cons p2 l ih =>
    rw [loopPlane2, loopPlane1_none m wires plane0 p2 plane1 (h p2 (List.mem_cons_self _ _))]
    exact ih (fun q hq => h q (List.mem_cons_of_mem _ hq))

/-- Without a triple in the coincidence window `wireHitIntersections` adds no point, and
consults no wire of the catalogue. -/
theorem wireHitIntersections_none (m : ℚ) (wires : List Wire) (tpcPlane : List WireHit)
    (hplanes : ∀ h ∈ tpcPlane, h.plane = 0 ∨ h.plane = 1 ∨ h.plane = 2)
    (hno : ∀ p2 ∈ tpcPlane, ∀ p1 ∈ tpcPlane, ∀ p0 ∈ tpcPlane,
      p2.plane = 2 → p1.plane = 1 → p0.plane = 0 →
      ¬ (inWindow (p2.peakTick - p1.peakTick) ∧ inWindow (p1.peakTick - p0.peakTick)))
    (acc : List TVector3) :
    wireHitIntersections m wires tpcPlane acc = some acc := by
  unfold wireHitIntersections
  rw [splitPlanes_eq]
  simp only []
  apply loopPlane2_none
  intro p2 hp2 p1 hp1 hw p0 hp0 hw0
  rw [List.mem_filter] at hp2 hp1 hp0
  have e2 : p2.plane = 2 := by simpa using hp2.2
  have e1 : p1.plane = 1 := by
    have := hp1.2
    simp only [ne_eq, decide_eq_true_eq] at this
    exact this.2
  have e0 : p0.plane = 0 := by
    have := hp0.2
    simp only [ne_eq, decide_eq_true_eq] at this
    rcases hplanes p0 hp0.1 with h | h | h
    · exact h
    · exact absurd h this.2
    · exact absurd h this.1
  exact hno p2 hp2.1 p1 hp1.1 p0 hp0.1 e2 e1 e0 ⟨hw, hw0⟩

theorem at_y_nil (n : Nat) (y : ℚ) :
    IntersectsByHeight.at_y ⟨n, []⟩ y = ([], none) ∨
    IntersectsByHeight.at_y ⟨n, []⟩ y = ([], some []) := by
  unfold IntersectsByHeight.at_y
  split
  · exact Or.inl rfl
  · simp only [IntersectsByHeight.bin, List.filter_nil]
    split_ifs
    · exact Or.inr rfl
    · exact Or.inl rfl
    · exact Or.inr rfl
    · exact Or.inl rfl

theorem retrieved_nil (n0 n1 : Nat) (pt : TVector3) :
    retrieved (IntersectsByHeight.at_y ⟨n0, []⟩) (IntersectsByHeight.at_y ⟨n1, []⟩) pt = [] := by
  unfold retrieved
  by_cases hx : pt.x < 0
  · rw [if_pos hx]
    rcases at_y_nil n0 pt.y with h | h
    · rw [h]
    · rw [h]
      rfl
  · rw [if_neg hx]
    rcases at_y_nil n1 pt.y with h | h
    · rw [h]
    · rw [h]
      rfl

/-- With no reconstructed point in either half every track scores 0. -/
theorem scoreTrack_nil (n0 n1 : Nat) (track : CRTTrack) :
    scoreTrack (IntersectsByHeight.at_y ⟨n0, []⟩) (IntersectsByHeight.at_y ⟨n1, []⟩) track =
      0 := by
  have he : examined (IntersectsByHeight.at_y ⟨n0, []⟩) (IntersectsByHeight.at_y ⟨n1, []⟩)
      track = [] := by
    unfold examined
    rw [List.flatMap_eq_nil_iff]
    intro pt _
    rw [retrieved_nil]
    rfl
  rw [scoreTrack_eq, he]
  rfl

theorem selectStep_fold_of_low (maps : VecMap CRTTrack TVector3 × VecMap TVector3 CRTTrack)
    (scores : CRTTrack → ℚ) (hlow : ∀ t, ¬ scores t > 0.000001)
    (l : List CRTTrack) (st : List CRTTrack × List ℚ) :
    l.foldl (selectStep maps scores) st = st := by
  induction l with
  | nil => rfl
  | cons a l ih =>
    rw [List.foldl_cons]
    have hb : selectStep maps scores st a = st := by
      unfold selectStep isBest
      rw [if_neg (hlow a)]
      simp
    rw [hb, ih]

/-- When no score exceeds the threshold the match list is empty. -/
theorem selectMatches_of_low (tracks : List CRTTrack) (scores : CRTTrack → ℚ)
    (hlow : ∀ t, ¬ scores t > 0.000001) : selectMatches tracks scores = [] := by
  unfold selectMatches selectRun
  rw [selectStep_fold_of_low _ scores hlow]

theorem candidates_fit (top mid bot : List CRTHit) (n : Nat) (hn : n < 2 ^ 20)
    (ht : top.length ≤ n) (hm : mid.length ≤ n) (hb : bot.length ≤ n) :
    (bottomCompletionTwoList bot (seedTracks top mid) ++
      fallbackList top mid bot).length < 2 ^ 64 := by
  have h1 : top.length * mid.length * (bot.length + 1) ≤ 2 ^ 20 * 2 ^ 20 * 2 ^ 20 :=
    Nat.mul_le_mul (Nat.mul_le_mul (by omega) (by omega)) (by omega)
  have h2 : bot.length * (top.length + mid.length) ≤ 2 ^ 20 * (2 ^ 20 + 2 ^ 20) :=
    Nat.mul_le_mul (by omega) (by omega)
  have h3 := length_candidates_le top mid bot
  have h4 : 2 ^ 20 * 2 ^ 20 * 2 ^ 20 + 2 ^ 20 * (2 ^ 20 + 2 ^ 20) < 2 ^ 64 := by norm_num
  exact lt_of_le_of_lt (le_trans h3 (Nat.add_le_add h1 h2)) h4

/-- Track building returns a candidate list for every event of fewer than `2 ^ 20` tagger
hits. -/
theorem makeTracks_eq (ytop ymid : ℚ) (chits : List CRTHit) (hsize : chits.length < 2 ^ 20) :
    makeTracks ytop ymid chits =
      some (bottomCompletionTwoList (classify ytop ymid chits).2.2
          (seedTracks (classify ytop ymid chits).1 (classify ytop ymid chits).2.1) ++
        (fallbackList (classify ytop ymid chits).1 (classify ytop ymid chits).2.1
          (classify ytop ymid chits).2.2).filter (fun incomp =>
            !subsumedBy (bottomCompletionTwoList (classify ytop ymid chits).2.2
              (seedTracks (classify ytop ymid chits).1 (classify ytop ymid chits).2.1))
              incomp)) := by
  unfold makeTracks
  apply buildTracks_eq
  apply candidates_fit _ _ _ chits.length hsize
  · rw [classify_eq]
    exact List.length_filter_le _ _
  · rw [classify_eq]
    exact List.length_filter_le _ _
  · rw [classify_eq]
    exact List.length_filter_le _ _

/-- Claim C12 (end to end without coincidences).  For every event (of fewer than `2 ^ 20`
tagger hits, wire hits on planes 0, 1, 2) whose wire hits contain no triple
(plane 2, plane 1, plane 0) with both time differences in `[3, 4]`: track building returns a
candidate list, both reconstructed-point lists are empty, every track scores 0, and the
match list is empty, whatever the tagger hits and the wire catalogue are. -/
theorem no_coincidence_no_match (ytop ymid invSqrt3 : ℚ) (NHeightBins : Nat)
    (wires : List Wire) (chits : List CRTHit) (whits : List WireHit)
    (hsize : chits.length < 2 ^ 20)
    (hplanes : ∀ h ∈ whits, h.plane = 0 ∨ h.plane = 1 ∨ h.plane = 2)
    (hno : ∀ p2 ∈ whits, ∀ p1 ∈ whits, ∀ p0 ∈ whits,
      p2.plane = 2 → p1.plane = 1 → p0.plane = 0 →
      ¬ (inWindow (p2.peakTick - p1.peakTick) ∧ inWindow (p1.peakTick - p0.peakTick))) :
    ∃ tracks, makeTracks ytop ymid chits = some tracks ∧
      wireHitIntersections invSqrt3 wires (splitTpc (sortWhits whits)).1 [] = some [] ∧
      wireHitIntersections invSqrt3 wires (splitTpc (sortWhits whits)).2 [] = some [] ∧
      (∀ track, scoreTrack (IntersectsByHeight.at_y ⟨NHeightBins, []⟩)
        (IntersectsByHeight.at_y ⟨NHeightBins, []⟩) track = 0) ∧
      wiresEvent ytop ymid invSqrt3 NHeightBins wires chits whits =
        some ⟨tracks, [], [], []⟩ := by
  have h0 : wireHitIntersections invSqrt3 wires (splitTpc (sortWhits whits)).1 [] =
      some [] :=
    wireHitIntersections_none invSqrt3 wires _
      (fun h hh => hplanes h (mem_of_mem_half (Or.inl hh)))
      (fun p2 h2 p1 h1 p0 h0 => hno p2 (mem_of_mem_half (Or.inl h2))
        p1 (mem_of_mem_half (Or.inl h1)) p0 (mem_of_mem_half (Or.inl h0))) []
  have h1 : wireHitIntersections invSqrt3 wires (splitTpc (sortWhits whits)).2 [] =
      some [] :=
    wireHitIntersections_none invSqrt3 wires _
      (fun h hh => hplanes h (mem_of_mem_half (Or.inr hh)))
      (fun p2 h2 p1 h1 p0 h0 => hno p2 (mem_of_mem_half (Or.inr h2))
        p1 (mem_of_mem_half (Or.inr h1)) p0 (mem_of_mem_half (Or.inr h0))) []
  refine ⟨_, makeTracks_eq ytop ymid chits hsize, h0, h1,
    fun track => scoreTrack_nil NHeightBins NHeightBins track, ?_⟩
  unfold wiresEvent
  rw [makeTracks_eq ytop ymid chits hsize, h0, h1]
  simp only []
  rw [selectMatches_of_low]
  intro t
  rw [scoreTrack_nil]
  norm_num

/-- Instance of C12: the sample tagger hits with three wire hits whose first time difference
is 2.9. -/
theorem no_coincidence_no_match_witness :
    ∃ tracks, makeTracks 300 250 sampleChits = some tracks ∧
      wiresEvent 300 250 sampleInvSqrt3 10 sampleWires sampleChits sampleQuietHits =
        some ⟨tracks, [], [], []⟩ := by
  obtain ⟨tracks, h1, _, _, _, h2⟩ :=
    no_coincidence_no_match 300 250 sampleInvSqrt3 10 sampleWires sampleChits sampleQuietHits
      (by simp [sampleChits])
      (by simp [sampleQuietHits, sampleWireHit])
      (by
        intro p2 h2 p1 h1 p0 h0 e2 e1 e0
        simp only [sampleQuietHits, List.mem_cons, List.mem_singleton, List.not_mem_nil,
          or_false] at h2 h1 h0
        rcases h2 with rfl | rfl | rfl
        · rcases h1 with rfl | rfl | rfl
          · simp [sampleWireHit] at e1
          · intro hw
            have := hw.1
            norm_num [sampleWireHit, inWindow] at this
          · simp [sampleWireHit] at e1
        · simp [sampleWireHit] at e2
        · simp [sampleWireHit] at e2)
  exact ⟨tracks, h1, h2⟩

/-- Claim C13 (end to end with no tagger hits).  For an event with zero tagger hits and any
wire hits: the three layer lists are empty; track building, with redundancy removal, returns
the empty candidate list without an out-of-range index; the match list of the empty
candidate list is empty for every score assignment; and the event yields the empty candidate
list and the empty match list as soon as the wire-plane intersections are defined. -/
theorem no_tagger_hits_no_match (ytop ymid invSqrt3 : ℚ) (NHeightBins : Nat)
    (wires : List Wire) (whits : List WireHit) :
    classify ytop ymid [] = ([], [], []) ∧
    bottomCompletion [] (seedTracks [] []) = some [] ∧
    removeRedundant 0 (fallbackPairs [] [] [] []) = some [] ∧
    makeTracks ytop ymid [] = some [] ∧
    (∀ scores : CRTTrack → ℚ, selectMatches [] scores = []) ∧
    wiresEvent ytop ymid invSqrt3 NHeightBins wires [] whits =
      (match wireHitIntersections invSqrt3 wires (splitTpc (sortWhits whits)).1 [],
          wireHitIntersections invSqrt3 wires (splitTpc (sortWhits whits)).2 [] with
        | some intersects0, some intersects1 => some ⟨[], intersects0, intersects1, []⟩
        | _, _ => none) := by
  have hm : makeTracks ytop ymid [] = some [] := rfl
  refine ⟨rfl, rfl, rfl, hm, fun _ => rfl, ?_⟩
  unfold wiresEvent
  rw [hm]
  rfl

end Wires
